import Mathlib

/-!
# Verification of the Minesweeper-with-treasures engine

A shallow embedding of the game engine of `minesweeper.py` (classes
`Cell`, `GameModel`, `GameController`, the validator
`load_and_validate_test_board`, and the coordinate guards of the view
layer), together with theorems settling the specification claims.

Conventions of the embedding:
* Python lists of cells become Lean `List`s; in-place mutation becomes
  functional update (`List.set`).
* Python `int` counters that the code compares or decrements
  (`clicked_count`, `flag_count`) are `Int`; sizes and counts that are
  only ever non-negative are `Nat`.
* `datetime.now()` carries no information the claims need beyond
  "was set", so `start_time` is an `Option Unit`.
* The view objects (`GUIView`/`TextView`) are pure observers except for
  `game_over`, which we model as a `Status` field on the controller
  state, and the coordinate bounds guard that both views run before
  forwarding a click to the controller, which we model in
  `handleReveal` / `handleFlag`.
* The random sampling of `random.sample` is modelled by passing the
  sampled list of coordinates explicitly; theorems hypothesise exactly
  the properties `random.sample` guarantees (distinct in-range
  elements, requested length, error when the sample exceeds the
  population).
-/

/-- The `Cell` of minesweeper.py (the `rect_id`/`text_id` view handles and the
redundant `x`/`y` coordinates are dropped; a cell is identified by its
position on the board). -/
structure Cell where
  is_mine : Bool
  is_flagged : Bool
  is_revealed : Bool
  adjacent_mines : Nat
  has_treasure : Bool
deriving DecidableEq, Repr

/-- Cell as produced by `Cell.__init__`. -/
def defaultCell : Cell :=
  { is_mine := false, is_flagged := false, is_revealed := false
    adjacent_mines := 0, has_treasure := false }

/-- The mutable state of `GameModel`. -/
structure GameModel where
  size_x : Nat
  size_y : Nat
  num_mines : Nat
  num_treasures : Nat
  board : List (List Cell)
  mines : Nat
  start_time : Option Unit
  flag_count : Int
  clicked_count : Int
  treasure_cells : List (Nat × Nat)
deriving DecidableEq, Repr

/-- The `self.board[x][y]` (out-of-range reads, which the Python code never
performs on a well-formed board, give the default cell). -/
def getCell (m : GameModel) (x y : Nat) : Cell :=
  ((m.board.getD x []).getD y defaultCell)

/-- Write `self.board[x][y] = c` (functional update). -/
def setCell (m : GameModel) (x y : Nat) (c : Cell) : GameModel :=
  { m with board := m.board.set x ((m.board.getD x []).set y c) }

/-- The offsets `[-1, 0, 1]` of the `get_neighbors` loops. -/
def offsets : List Int := [-1, 0, 1]

/-- One iteration body of `GameModel.get_neighbors`: given the offset pair
`(dx, dy)`, yield the neighbour coordinate when the guard
`(dx != 0 or dy != 0) and 0 <= nx < size_x and 0 <= ny < size_y` holds. -/
def neighborOf (sx sy x y : Nat) (d : Int × Int) : Option (Nat × Nat) :=
  let nx : Int := (x : Int) + d.1
  let ny : Int := (y : Int) + d.2
  if (d.1 ≠ 0 ∨ d.2 ≠ 0) ∧ 0 ≤ nx ∧ nx < (sx : Int) ∧ 0 ≤ ny ∧ ny < (sy : Int) then
    some (nx.toNat, ny.toNat)
  else none

/-- The `GameModel.get_neighbors(x, y)`: the two nested loops over
`dx, dy in [-1, 0, 1]` with the bounds-and-not-self guard, returning
coordinates instead of aliased cell objects. -/
def get_neighbors (sx sy x y : Nat) : List (Nat × Nat) :=
  (offsets.flatMap fun dx => offsets.map fun dy => (dx, dy)).filterMap
    (neighborOf sx sy x y)

/-- The `GameModel.count_adjacent_mines(cell)`. -/
def count_adjacent_mines (m : GameModel) (x y : Nat) : Nat :=
  (get_neighbors m.size_x m.size_y x y).countP (fun p => (getCell m p.1 p.2).is_mine)

/-- Rebuild an `sx × sy` board from a cell-valued function (helper for
construction; the Python constructor builds exactly such a grid). -/
def buildBoard (sx sy : Nat) (f : Nat → Nat → Cell) : List (List Cell) :=
  (List.range sx).map fun x => (List.range sy).map fun y => f x y

/-- The `GameModel.calculate_adjacent_mines`: assign every cell its
neighbour-mine count (computed from the board before the assignment
loop; the loop only writes `adjacent_mines`, which the count never
reads, so the in-place Python loop equals this simultaneous update). -/
def calculate_adjacent_mines (m : GameModel) : GameModel :=
  let f := fun x y => { getCell m x y with adjacent_mines := count_adjacent_mines m x y }
  { m with board := buildBoard m.size_x m.size_y f }

/-- The `GameModel.is_adjacent_to_treasure(cell)`: scan `treasure_cells`,
test membership of the cell in each treasure's neighbour list. -/
def is_adjacent_to_treasure (m : GameModel) (x y : Nat) : Bool :=
  m.treasure_cells.any fun t =>
    (get_neighbors m.size_x m.size_y t.1 t.2).contains (x, y)

/-- Outcome of the `view.game_over(won)` calls: the game result as
declared to the player.  `inProgress` when no such call has happened. -/
inductive Status where
  | inProgress
  | won
  | lost
deriving DecidableEq, Repr

/-- Controller-level state: the model plus the declared game status. -/
structure GameState where
  model : GameModel
  status : Status
deriving DecidableEq, Repr

/-- The `size_x * size_y - mines - num_treasures`, the `total_safe_cells`
expression of `on_click` / `reveal_empty_cells` (Python int arithmetic). -/
def totalSafeCells (m : GameModel) : Int :=
  (m.size_x : Int) * (m.size_y : Int) - (m.mines : Int) - (m.num_treasures : Int)

/-- Body of the neighbour loop in `GameController.reveal_empty_cells`:
auto-reveal the neighbour when it is unrevealed, not a mine, not
flagged, not a treasure cell and not adjacent to a treasure; enqueue it
when its `adjacent_mines` is zero. -/
def scanNeighbor (acc : GameModel × List (Nat × Nat)) (p : Nat × Nat) :
    GameModel × List (Nat × Nat) :=
  let m := acc.1
  let nb := getCell m p.1 p.2
  if nb.is_revealed = false ∧ nb.is_mine = false ∧ nb.is_flagged = false then
    if nb.has_treasure then acc
    else if is_adjacent_to_treasure m p.1 p.2 then acc
    else
      let m1 := setCell m p.1 p.2 { nb with is_revealed := true }
      let m2 := { m1 with clicked_count := m1.clicked_count + 1 }
      if nb.adjacent_mines = 0 then (m2, acc.2 ++ [p]) else (m2, acc.2)
  else acc

/-- The `while queue` loop of `GameController.reveal_empty_cells` (the
deque becomes an explicit queue list; `fuel` bounds the number of loop
iterations — `on_click` supplies more fuel than any run can use, and
every theorem below holds for every fuel value).  The trailing win
check of the Python function is performed by `on_click`, which repeats
the identical comparison on the same final model. -/
def reveal_empty_cells : Nat → GameModel → List (Nat × Nat) → GameModel
  | 0, m, _ => m
  | _ + 1, m, [] => m
  | fuel + 1, m, c :: rest =>
    let acc := (get_neighbors m.size_x m.size_y c.1 c.2).foldl scanNeighbor (m, rest)
    reveal_empty_cells fuel acc.1 acc.2

/-- The `start_time` recording at the top of `GameController.on_click`:
`if self.model.start_time is None: self.model.start_time = datetime.now()`. -/
def clickStart (m : GameModel) : GameModel :=
  if m.start_time = none then { m with start_time := some () } else m

/-- The `GameController.on_click(x, y)`: record `start_time` on the first
call, reject revealed/flagged cells, reveal the cell, end the game on a
mine (lost) or treasure (won), cascade on zero adjacency, then declare
a win when `clicked_count` reaches `total_safe_cells`. -/
def on_click (s : GameState) (x y : Nat) : GameState :=
  let cell := getCell s.model x y
  let m0 := clickStart s.model
  if cell.is_revealed ∨ cell.is_flagged then { s with model := m0 }
  else
    let m1 := setCell m0 x y { cell with is_revealed := true }
    let m2 := { m1 with clicked_count := m1.clicked_count + 1 }
    if cell.is_mine then { model := m2, status := Status.lost }
    else if cell.has_treasure then { model := m2, status := Status.won }
    else
      let m3 := if cell.adjacent_mines = 0
        then reveal_empty_cells (m2.size_x * m2.size_y + 1) m2 [(x, y)]
        else m2
      if m3.clicked_count = totalSafeCells m3
        then { model := m3, status := Status.won }
        else { model := m3, status := s.status }

/-- The `GameController.on_right_click(x, y)`: no-op on a revealed cell,
otherwise toggle `is_flagged` and move `flag_count` by one. -/
def on_right_click (s : GameState) (x y : Nat) : GameState :=
  let cell := getCell s.model x y
  if cell.is_revealed then s
  else if cell.is_flagged = false then
    { s with model :=
        { setCell s.model x y { cell with is_flagged := true } with
          flag_count := s.model.flag_count + 1 } }
  else
    { s with model :=
        { setCell s.model x y { cell with is_flagged := false } with
          flag_count := s.model.flag_count - 1 } }

/-- The coordinate guard `0 <= x < size_x and 0 <= y < size_y` that both
views run before forwarding to the controller (`on_canvas_click`,
`on_canvas_right_click`, `process_command`). -/
def coordInBounds (m : GameModel) (x y : Int) : Prop :=
  0 ≤ x ∧ x < (m.size_x : Int) ∧ 0 ≤ y ∧ y < (m.size_y : Int)

instance (m : GameModel) (x y : Int) : Decidable (coordInBounds m x y) := by
  unfold coordInBounds; infer_instance

/-- A reveal request arriving from the view layer: bounds-checked, then
dispatched to `GameController.on_click`. -/
def handleReveal (s : GameState) (x y : Int) : GameState :=
  if coordInBounds s.model x y then on_click s x.toNat y.toNat else s

/-- A flag request arriving from the view layer: bounds-checked, then
dispatched to `GameController.on_right_click`. -/
def handleFlag (s : GameState) (x y : Int) : GameState :=
  if coordInBounds s.model x y then on_right_click s x.toNat y.toNat else s

/-- The message printed by `process_command` for an out-of-bounds
coordinate, `None` when the guard passes (minesweeper.py line 688). -/
def boundsMessage (m : GameModel) (x y : Int) : Option String :=
  if coordInBounds m x y then none else some ("Coordinates out of bounds.")

/-- A gameplay request: reveal (left click / `r` command) or flag toggle
(right click / `f` command), with the still-unchecked coordinate. -/
inductive Op where
  | reveal (x y : Int)
  | flag (x y : Int)
deriving DecidableEq, Repr

/-- Apply one request. -/
def applyOp (s : GameState) : Op → GameState
  | Op.reveal x y => handleReveal s x y
  | Op.flag x y => handleFlag s x y

/-- Apply a sequence of requests in order. -/
def applyOps (s : GameState) (ops : List Op) : GameState :=
  ops.foldl applyOp s

/-! ## Board construction (`GameModel.__init__` and helpers) -/

/-- The freshly allocated model before any placement: the
`[[Cell(x, y) for y ...] for x ...]` grid and zeroed counters. -/
def blankModel (sx sy nm nt : Nat) : GameModel :=
  { size_x := sx, size_y := sy, num_mines := nm, num_treasures := nt
    board := buildBoard sx sy (fun _ _ => defaultCell)
    mines := 0, start_time := none, flag_count := 0, clicked_count := 0
    treasure_cells := [] }

/-- One iteration of the `place_mines` loop: flag the sampled cell as a
mine and bump `self.mines`. -/
def placeMineAt (m : GameModel) (p : Nat × Nat) : GameModel :=
  { setCell m p.1 p.2 { getCell m p.1 p.2 with is_mine := true } with
    mines := m.mines + 1 }

/-- The `GameModel.place_mines`, with the result of
`random.sample(all_cells, num_mines)` passed in as `choice`. -/
def place_mines (m : GameModel) (choice : List (Nat × Nat)) : GameModel :=
  choice.foldl placeMineAt m

/-- The `len(available_cells)` of `place_treasures`: the number of non-mine
cells on the board. -/
def nonMineCount (m : GameModel) : Nat :=
  (m.board.map (fun row => row.countP (fun c => c.is_mine = false))).sum

/-- One iteration of the `place_treasures` loop: flag the sampled cell
as treasure and append it to `treasure_cells`. -/
def placeTreasureAt (m : GameModel) (p : Nat × Nat) : GameModel :=
  { setCell m p.1 p.2 { getCell m p.1 p.2 with has_treasure := true } with
    treasure_cells := m.treasure_cells ++ [p] }

/-- The `GameModel.place_treasures`, with the sample passed in as `choice`;
placement happens only under the guard
`len(available_cells) >= self.num_treasures`, otherwise the method
falls through silently. -/
def place_treasures (m : GameModel) (choice : List (Nat × Nat)) : GameModel :=
  if m.num_treasures ≤ nonMineCount m then choice.foldl placeTreasureAt m else m

/-- Random-mode `GameModel.__init__`.  `random.sample(all_cells,
num_mines)` raises `ValueError` exactly when the requested sample
exceeds the `size_x*size_y` population, before any cell is touched;
`place_treasures` samples from `available_cells` only under its length
guard and so never raises. -/
def mkGameModelRandom (sx sy nm nt : Nat)
    (mineChoice treasureChoice : List (Nat × Nat)) : Except String GameModel :=
  if sx * sy < nm then Except.error ("ValueError: sample larger than population")
  else Except.ok
    (place_treasures
      (calculate_adjacent_mines (place_mines (blankModel sx sy nm nt) mineChoice))
      treasureChoice)

/-- One iteration of the `initialize_board_from_test_board` loops:
value `1` makes a mine (bumping `self.mines`), value `2` makes a
treasure (appending to `treasure_cells`), anything else is skipped. -/
def applyTestCell (tb : List (List Nat)) (m : GameModel) (p : Nat × Nat) : GameModel :=
  let v := (tb.getD p.1 []).getD p.2 0
  if v = 1 then
    { setCell m p.1 p.2 { getCell m p.1 p.2 with is_mine := true } with
      mines := m.mines + 1 }
  else if v = 2 then
    { setCell m p.1 p.2 { getCell m p.1 p.2 with has_treasure := true } with
      treasure_cells := m.treasure_cells ++ [p] }
  else m

/-- The `GameModel.initialize_board_from_test_board`: scan the grid in row
order, place mines/treasures from the matrix values, overwrite
`num_treasures` with the number of treasures found, then compute
adjacency counts. -/
def initialize_board_from_test_board (m : GameModel) (tb : List (List Nat)) : GameModel :=
  let m1 := ((List.range m.size_x).flatMap fun x =>
    (List.range m.size_y).map fun y => (x, y)).foldl (applyTestCell tb) m
  calculate_adjacent_mines { m1 with num_treasures := m1.treasure_cells.length }

/-- Test-mode `GameModel.__init__` (the `test_board` branch). -/
def mkGameModelTest (sx sy nm nt : Nat) (tb : List (List Nat)) : GameModel :=
  initialize_board_from_test_board (blankModel sx sy nm nt) tb

/-- Initial controller state over a freshly constructed model: no
`game_over` call has been made. -/
def initState (m : GameModel) : GameState :=
  { model := m, status := Status.inProgress }

/-! ## Concrete fixtures

States used by witnesses and counterexamples, reached by running the
constructors and request handlers on concrete inputs. -/

/-- A 1×2 board, no mines, no treasures. -/
def modelA : GameModel :=
  (mkGameModelRandom 1 2 0 0 [] []).toOption.getD (blankModel 0 0 0 0)

/-- The `modelA` after the player flags cell (0,0): a flagged cell and no
recorded `start_time`. -/
def stateA : GameState := applyOps (initState modelA) [Op.flag 0 0]

/-- A 1×2 board with a single mine at (0,0). -/
def modelB : GameModel :=
  (mkGameModelRandom 1 2 1 0 [(0, 0)] []).toOption.getD (blankModel 0 0 0 0)

/-- The `modelB` after the player reveals the mine: the game has been
declared lost. -/
def stateB : GameState := applyOps (initState modelB) [Op.reveal 0 0]


/-- An 8x8 test board: 10 mines placed so that every safe cell has at
least one adjacent mine (no cascades), one treasure at (7,0). -/
def tbC : List (List Nat) :=
  [[0, 0, 0, 1, 0, 0, 0, 0],
   [0, 1, 0, 0, 1, 0, 1, 0],
   [0, 0, 0, 0, 0, 0, 0, 0],
   [0, 0, 0, 0, 0, 0, 0, 0],
   [0, 1, 0, 0, 1, 0, 1, 0],
   [0, 0, 0, 0, 0, 0, 0, 0],
   [0, 1, 0, 0, 1, 0, 1, 0],
   [2, 0, 0, 0, 0, 0, 0, 0]]

/-- The 8x8 model built from `tbC`: 10 mines, 1 treasure, 53 safe cells. -/
def modelC : GameModel := mkGameModelTest 8 8 10 1 tbC

/-- Reveal requests for 52 of the 53 safe cells of `modelC` (all but
(0,0)). -/
def opsC : List Op :=
  [Op.reveal 0 1, Op.reveal 0 2, Op.reveal 0 4, Op.reveal 0 5, Op.reveal 0 6, Op.reveal 0 7, Op.reveal 1 0, Op.reveal 1 2, Op.reveal 1 3, Op.reveal 1 5, Op.reveal 1 7, Op.reveal 2 0, Op.reveal 2 1, Op.reveal 2 2, Op.reveal 2 3, Op.reveal 2 4, Op.reveal 2 5, Op.reveal 2 6, Op.reveal 2 7, Op.reveal 3 0, Op.reveal 3 1, Op.reveal 3 2, Op.reveal 3 3, Op.reveal 3 4, Op.reveal 3 5, Op.reveal 3 6, Op.reveal 3 7, Op.reveal 4 0, Op.reveal 4 2, Op.reveal 4 3, Op.reveal 4 5, Op.reveal 4 7, Op.reveal 5 0, Op.reveal 5 1, Op.reveal 5 2, Op.reveal 5 3, Op.reveal 5 4, Op.reveal 5 5, Op.reveal 5 6, Op.reveal 5 7, Op.reveal 6 0, Op.reveal 6 2, Op.reveal 6 3, Op.reveal 6 5, Op.reveal 6 7, Op.reveal 7 1, Op.reveal 7 2, Op.reveal 7 3, Op.reveal 7 4, Op.reveal 7 5, Op.reveal 7 6, Op.reveal 7 7]

/-- The `modelC` after revealing 52 safe cells: one reveal away from the
win condition. -/
def stateC : GameState := applyOps (initState modelC) opsC


/-- A 2×2 board, no mines, one treasure at (1,1). -/
def modelD : GameModel :=
  (mkGameModelRandom 2 2 0 1 [] [(1, 1)]).toOption.getD (blankModel 0 0 0 0)


/-- Spec-side count: the number of on-board cells whose `is_revealed`
flag is true. -/
def revealedCount (m : GameModel) : Nat :=
  ((Finset.range m.size_x ×ˢ Finset.range m.size_y).filter fun p =>
    (getCell m p.1 p.2).is_revealed = true).card

/-- Spec-side count: the number of on-board safe cells (neither mine nor
treasure) whose `is_revealed` flag is true. -/
def safeRevealedCount (m : GameModel) : Nat :=
  ((Finset.range m.size_x ×ˢ Finset.range m.size_y).filter fun p =>
    (getCell m p.1 p.2).is_revealed = true ∧ (getCell m p.1 p.2).is_mine = false ∧
    (getCell m p.1 p.2).has_treasure = false).card


/-- Spec-side adjacency: king-move (Chebyshev distance 1) neighbourhood,
no wraparound — `(i, j)` differs from `(x, y)` and each coordinate by at
most one. -/
def chebAdjacent (x y i j : Nat) : Prop :=
  ¬(i = x ∧ j = y) ∧ ((i : Int) - x).natAbs ≤ 1 ∧ ((j : Int) - y).natAbs ≤ 1

instance (x y i j : Nat) : Decidable (chebAdjacent x y i j) := by
  unfold chebAdjacent; infer_instance

/-- Spec-side count: the number of cells in the 8-neighbourhood of
`(x, y)` (clipped at the board edges) whose `is_mine` flag is true. -/
def specAdjacentMines (m : GameModel) (x y : Nat) : Nat :=
  ((Finset.range m.size_x ×ˢ Finset.range m.size_y).filter fun p =>
    chebAdjacent x y p.1 p.2 ∧ (getCell m p.1 p.2).is_mine = true).card

/-- The adjacency invariant: every on-board cell's `adjacent_mines`
field equals the spec-side count of its mined neighbours. -/
def adjMinesInv (m : GameModel) : Prop :=
  ∀ x, x < m.size_x → ∀ y, y < m.size_y →
    (getCell m x y).adjacent_mines = specAdjacentMines m x y

instance (m : GameModel) : Decidable (adjMinesInv m) := by
  unfold adjMinesInv; infer_instance


/-- The per-value check of the reading loop in
`load_and_validate_test_board` (`value not in ['0', '1', '2']`), over
the parsed integers. -/
def cellValueOK (v : Nat) : Bool := v == 0 || v == 1 || v == 2

/-- The row-reading loop of `load_and_validate_test_board`: for each row
in order, first the length check, then the value check, failing fast
with that check's message. -/
def readRows : List (List Nat) → Option String
  | [] => none
  | r :: rs =>
    if r.length ≠ 8 then some ("Each row must have exactly 8 values.")
    else if r.any (fun v => !(cellValueOK v)) then some ("Each cell must be 0, 1, or 2.")
    else readRows rs

/-- The validator's board indexing `board[x][y]` (defined after the
shape checks have passed, so the defaults are never hit there). -/
def tbVal (rows : List (List Nat)) (x y : Nat) : Nat := (rows.getD x []).getD y 0

/-- The per-cell contribution to the validator's `adjacent_pairs` sum:
a mine adds one for a mine directly to its right and one for a mine
directly below. -/
def adjPairContrib (rows : List (List Nat)) (x y : Nat) : Nat :=
  if tbVal rows x y = 1 then
    (if y < 7 ∧ tbVal rows x (y + 1) = 1 then 1 else 0) +
    (if x < 7 ∧ tbVal rows (x + 1) y = 1 then 1 else 0)
  else 0

/-- Rule check: `len(board) != 8` after the reading loop. -/
def checkRowCount (rows : List (List Nat)) : Option String :=
  if rows.length ≠ 8 then some ("There must be exactly 8 rows.") else none

/-- Rule check: `mine_count != 10`. -/
def checkMineTotal (rows : List (List Nat)) : Option String :=
  let mine_count : Nat := (rows.map (fun r => r.count 1)).sum
  if mine_count ≠ 10 then
    some ("Number of mines must be exactly 10. Found " ++ toString mine_count ++ ".")
  else none

/-- Rule check: first row without a mine, by index. -/
def checkRowCoverage (rows : List (List Nat)) : Option String :=
  ((List.range 8).find? (fun i => (rows.getD i []).count 1 < 1)).map
    (fun i => "Row " ++ toString (i + 1) ++ " does not have at least one mine.")

/-- Rule check: first column without a mine, by index. -/
def checkColCoverage (rows : List (List Nat)) : Option String :=
  ((List.range 8).find? (fun c =>
      ((List.range 8).map (fun r => tbVal rows r c)).count 1 < 1)).map
    (fun c => "Column " ++ toString (c + 1) ++ " does not have at least one mine.")

/-- Rule check: exactly one mine on the main diagonal. -/
def checkDiagonal (rows : List (List Nat)) : Option String :=
  let diagonal_mines : Nat := ((List.range 8).filter (fun i => tbVal rows i i = 1)).length
  if diagonal_mines ≠ 1 then
    some ("There must be exactly one mine on the main diagonal. Found "
      ++ toString diagonal_mines ++ ".")
  else none

/-- Rule check: exactly one orthogonally adjacent mine pair, counted
globally by the right-and-down scan. -/
def checkAdjacent (rows : List (List Nat)) : Option String :=
  let adjacent_pairs : Nat :=
    ((List.range 8).map (fun x =>
      ((List.range 8).map (fun y => adjPairContrib rows x y)).sum)).sum
  if adjacent_pairs ≠ 1 then
    some ("There must be exactly one pair of adjacent mines horizontally or vertically. Found "
      ++ toString adjacent_pairs ++ " pairs.")
  else none

/-- Rule checks: at least one and at most nine treasures. -/
def checkTreasureMin (rows : List (List Nat)) : Option String :=
  if (rows.map (fun r => r.count 2)).sum < 1 then
    some ("There must be at least one treasure.")
  else none

/-- Rule check: no more than nine treasures. -/
def checkTreasureMax (rows : List (List Nat)) : Option String :=
  if (rows.map (fun r => r.count 2)).sum > 9 then
    some ("There must be no more than 9 treasures.")
  else none

/-- The fail-fast chain of `load_and_validate_test_board`
(minesweeper.py lines 765-813): each early `return False, msg` becomes
the first `some msg` of the chain, in the code order. -/
def validationError (rows : List (List Nat)) : Option String :=
  (readRows rows).orElse fun _ =>
  (checkRowCount rows).orElse fun _ =>
  (checkMineTotal rows).orElse fun _ =>
  (checkRowCoverage rows).orElse fun _ =>
  (checkColCoverage rows).orElse fun _ =>
  (checkDiagonal rows).orElse fun _ =>
  (checkAdjacent rows).orElse fun _ =>
  (checkTreasureMin rows).orElse fun _ =>
  checkTreasureMax rows

/-- The validation part of `load_and_validate_test_board`
(minesweeper.py lines 765-815), over the parsed integer matrix; the
file-existence and CSV-parsing steps are I/O and out of scope.  Returns
the `(ok, message)` pair; `board` is the input itself when ok. -/
def load_and_validate_test_board (rows : List (List Nat)) : Bool × String :=
  match validationError rows with
  | some msg => (false, msg)
  | none => (true, "Board is valid.")

/-- Spec-side counts over the 8×8 coordinate grid. -/
def specMineCount (rows : List (List Nat)) : Nat :=
  ((Finset.range 8 ×ˢ Finset.range 8).filter fun p => tbVal rows p.1 p.2 = 1).card

/-- Spec-side treasure count. -/
def specTreasureCount (rows : List (List Nat)) : Nat :=
  ((Finset.range 8 ×ˢ Finset.range 8).filter fun p => tbVal rows p.1 p.2 = 2).card

/-- Spec-side main-diagonal mine count. -/
def specDiagCount (rows : List (List Nat)) : Nat :=
  ((Finset.range 8).filter fun i => tbVal rows i i = 1).card

/-- Spec-side global count of orthogonally adjacent mine pairs: each
horizontal pair counted at its left cell, each vertical pair at its top
cell. -/
def specAdjPairs (rows : List (List Nat)) : Nat :=
  ((Finset.range 8 ×ˢ Finset.range 7).filter fun p =>
    tbVal rows p.1 p.2 = 1 ∧ tbVal rows p.1 (p.2 + 1) = 1).card +
  ((Finset.range 7 ×ˢ Finset.range 8).filter fun p =>
    tbVal rows p.1 p.2 = 1 ∧ tbVal rows (p.1 + 1) p.2 = 1).card

/-- The spec's acceptance conditions for a test board, stated
independently of the validator's control flow. -/
def specBoardOK (rows : List (List Nat)) : Prop :=
  rows.length = 8 ∧
  (∀ r ∈ rows, r.length = 8) ∧
  (∀ r ∈ rows, ∀ v ∈ r, v = 0 ∨ v = 1 ∨ v = 2) ∧
  specMineCount rows = 10 ∧
  (∀ i, i < 8 → ∃ j, j < 8 ∧ tbVal rows i j = 1) ∧
  (∀ j, j < 8 → ∃ i, i < 8 ∧ tbVal rows i j = 1) ∧
  specDiagCount rows = 1 ∧
  specAdjPairs rows = 1 ∧
  1 ≤ specTreasureCount rows ∧ specTreasureCount rows ≤ 9

instance (rows : List (List Nat)) : Decidable (specBoardOK rows) := by
  unfold specBoardOK; infer_instance

/-! ## Well-formedness of the board grid -/

/-- The board is a genuine `size_x × size_y` grid (true of every
constructed model, preserved by every operation). -/
def boardWF (m : GameModel) : Prop :=
  m.board.length = m.size_x ∧ ∀ row ∈ m.board, row.length = m.size_y

instance (m : GameModel) : Decidable (boardWF m) := by
  unfold boardWF; infer_instance

/-- The fields that gameplay never touches: dimensions, configured and
placed mine/treasure counts, the treasure list, and each cell's
mine/treasure/adjacency data.  `SameStatic m m'` says `m'` agrees with
`m` on all of them. -/
structure SameStatic (m m' : GameModel) : Prop where
  size_x : m'.size_x = m.size_x
  size_y : m'.size_y = m.size_y
  num_mines : m'.num_mines = m.num_mines
  num_treasures : m'.num_treasures = m.num_treasures
  mines : m'.mines = m.mines
  treasure_cells : m'.treasure_cells = m.treasure_cells
  cellFields : ∀ i j, (getCell m' i j).is_mine = (getCell m i j).is_mine ∧
    (getCell m' i j).has_treasure = (getCell m i j).has_treasure ∧
    (getCell m' i j).adjacent_mines = (getCell m i j).adjacent_mines

/-- Flag data (`is_flagged` of every cell, and `flag_count`) agree —
preserved by reveals, not by flag toggles. -/
def SameFlags (m m' : GameModel) : Prop :=
  m'.flag_count = m.flag_count ∧
  ∀ i j, (getCell m' i j).is_flagged = (getCell m i j).is_flagged

/-- A cell on which the flood fill must never land: a treasure cell, or
a cell king-move-adjacent to a treasure (the spec's protected zone). -/
def treasureGuard (m : GameModel) (i j : Nat) : Prop :=
  (getCell m i j).has_treasure = true ∨ is_adjacent_to_treasure m i j = true

instance (m : GameModel) (i j : Nat) : Decidable (treasureGuard m i j) := by
  unfold treasureGuard; infer_instance

/-! ## Helper lemmas -/

theorem getD_set_self {α : Type} (l : List α) (i : Nat) (a d : α) (h : i < l.length) :
    (l.set i a).getD i d = a := by
  simp [List.getD_eq_getElem?_getD, List.getElem?_set, h]

theorem getD_set_ne {α : Type} (l : List α) (i j : Nat) (a d : α) (h : i ≠ j) :
    (l.set i a).getD j d = l.getD j d := by
  simp [List.getD_eq_getElem?_getD, List.getElem?_set, h]

theorem set_getD_self {α : Type} (l : List α) (y : Nat) (d : α) :
    l.set y (l.getD y d) = l := by
  by_cases h : y < l.length
  · rw [List.getD_eq_getElem?_getD, List.getElem?_eq_getElem h, Option.getD_some]
    apply List.ext_getElem?
    intro i
    rw [List.getElem?_set]
    split
    · next heq => subst heq; simp [List.getElem?_eq_getElem h]
    · rfl
  · exact List.set_eq_of_length_le (Nat.le_of_not_lt h)

theorem getCell_setCell_ne (m : GameModel) (x y i j : Nat) (c : Cell)
    (h : ¬(x = i ∧ y = j)) :
    getCell (setCell m x y c) i j = getCell m i j := by
  unfold getCell setCell
  simp only [List.getD_eq_getElem?_getD, List.getElem?_set]
  by_cases hx : x = i
  · subst hx
    have hy : y ≠ j := fun hy => h ⟨rfl, hy⟩
    by_cases hlen : x < m.board.length
    · simp [if_pos hlen, List.getElem?_set, hy]
    · simp [if_neg hlen, List.getElem?_eq_none (Nat.le_of_not_lt hlen)]
  · simp only [if_neg hx]

theorem getCell_setCell_self (m : GameModel) (x y : Nat) (c : Cell)
    (hwf : boardWF m) (hx : x < m.size_x) (hy : y < m.size_y) :
    getCell (setCell m x y c) x y = c := by
  obtain ⟨hlen, hrows⟩ := hwf
  have hx' : x < m.board.length := by rw [hlen]; exact hx
  have hrow : (m.board.getD x []).length = m.size_y := by
    rw [List.getD_eq_getElem?_getD, List.getElem?_eq_getElem hx', Option.getD_some]
    exact hrows _ (List.getElem_mem hx')
  unfold getCell setCell
  simp only
  rw [getD_set_self _ _ _ _ hx', getD_set_self]
  rw [hrow]; exact hy

theorem boardWF_setCell (m : GameModel) (x y : Nat) (c : Cell) (hwf : boardWF m) :
    boardWF (setCell m x y c) := by
  obtain ⟨hlen, hrows⟩ := hwf
  constructor
  · simpa [setCell] using hlen
  · intro row hrow
    simp only [setCell] at hrow
    by_cases hx : x < m.board.length
    · rcases List.mem_or_eq_of_mem_set hrow with h | h
      · exact hrows _ h
      · subst h
        rw [List.length_set, List.getD_eq_getElem?_getD,
          List.getElem?_eq_getElem hx, Option.getD_some]
        exact hrows _ (List.getElem_mem hx)
    · rw [List.set_eq_of_length_le (Nat.le_of_not_lt hx)] at hrow
      exact hrows _ hrow

theorem setCell_getCell_self (m : GameModel) (x y : Nat) :
    setCell m x y (getCell m x y) = m := by
  unfold setCell getCell
  rw [set_getD_self, set_getD_self]

theorem setCell_setCell_self (m : GameModel) (x y : Nat) (c c' : Cell) :
    setCell (setCell m x y c) x y c' = setCell m x y c' := by
  unfold setCell
  simp only
  by_cases hx : x < m.board.length
  · have h1 : (m.board.set x ((m.board.getD x []).set y c)).getD x [] =
        (m.board.getD x []).set y c := getD_set_self _ _ _ _ hx
    rw [h1, List.set_set, List.set_set]
  · rw [List.set_eq_of_length_le (Nat.le_of_not_lt hx),
      List.set_eq_of_length_le (Nat.le_of_not_lt hx)]

theorem setCell_flagUpdate (m : GameModel) (v : Int) (x y : Nat) (c : Cell) :
    setCell { m with flag_count := v } x y c = { setCell m x y c with flag_count := v } := rfl

theorem setCell_getCell_eta (m : GameModel) (x y : Nat) :
    setCell m x y
      { is_mine := (getCell m x y).is_mine, is_flagged := (getCell m x y).is_flagged
        is_revealed := (getCell m x y).is_revealed
        adjacent_mines := (getCell m x y).adjacent_mines
        has_treasure := (getCell m x y).has_treasure } = m :=
  setCell_getCell_self m x y

theorem cell_double_flip (d : Cell) :
    ({ { d with is_flagged := !d.is_flagged } with
        is_flagged := !({ d with is_flagged := !d.is_flagged } : Cell).is_flagged } : Cell) = d := by
  cases d; simp

theorem flag_flip_cancel (fc : Int) (b : Bool) :
    fc + (if b then (-1 : Int) else 1) + (if (!b) then (-1 : Int) else 1) = fc := by
  cases b <;> simp

/-- The `on_right_click` on an unrevealed cell: flip the flag, move the
counter by ±1 (both branches of the Python if-else in one formula). -/
theorem on_right_click_unrevealed (s : GameState) (x y : Nat)
    (hrev : (getCell s.model x y).is_revealed = false) :
    on_right_click s x y =
      { s with model :=
        { setCell s.model x y
            { getCell s.model x y with is_flagged := !(getCell s.model x y).is_flagged } with
          flag_count := s.model.flag_count +
            (if (getCell s.model x y).is_flagged then (-1 : Int) else 1) } } := by
  unfold on_right_click
  by_cases hfl : (getCell s.model x y).is_flagged
  · simp [hrev, hfl, Int.sub_eq_add_neg]
  · simp only [Bool.not_eq_true] at hfl
    simp [hrev, hfl]

/-- C10: a flag toggle on a revealed cell changes nothing; on an
unrevealed cell it flips `is_flagged`, moves `flag_count` by exactly
+1 (setting) or −1 (clearing), and toggling twice restores the whole
state. -/
theorem claim_C10_flag_toggle (s : GameState) (x y : Nat)
    (hwf : boardWF s.model) (hx : x < s.model.size_x) (hy : y < s.model.size_y) :
    ((getCell s.model x y).is_revealed = true → on_right_click s x y = s) ∧
    ((getCell s.model x y).is_revealed = false →
      (getCell (on_right_click s x y).model x y).is_flagged
          = !(getCell s.model x y).is_flagged ∧
      (on_right_click s x y).model.flag_count
          = s.model.flag_count + (if (getCell s.model x y).is_flagged then (-1 : Int) else 1) ∧
      on_right_click (on_right_click s x y) x y = s) := by
  constructor
  · intro hrev
    unfold on_right_click
    simp [hrev]
  · intro hrev
    have h1 := on_right_click_unrevealed s x y hrev
    have hcg : getCell (on_right_click s x y).model x y
        = { getCell s.model x y with is_flagged := !(getCell s.model x y).is_flagged } := by
      rw [h1]
      exact getCell_setCell_self s.model x y _ hwf hx hy
    refine ⟨by rw [hcg], by rw [h1], ?_⟩
    have hrev2 : (getCell (on_right_click s x y).model x y).is_revealed = false := by
      rw [hcg]; exact hrev
    have h2 := on_right_click_unrevealed (on_right_click s x y) x y hrev2
    rw [h2, hcg, h1]
    simp only [setCell_flagUpdate, cell_double_flip, setCell_setCell_self,
      setCell_getCell_self, flag_flip_cancel, Bool.not_not, setCell_getCell_eta]

theorem claim_C10_flag_toggle_witness :
    on_right_click (on_right_click (initState modelA) 0 1) 0 1 = initState modelA ∧
    (on_right_click (initState modelA) 0 1).model.flag_count
      = (initState modelA).model.flag_count + 1 := by
  have h := (claim_C10_flag_toggle (initState modelA) 0 1
    (by decide) (by decide) (by decide)).2 (by decide)
  refine ⟨h.2.2, ?_⟩
  rw [h.2.1]
  decide

/-- The start-time step always ends with `start_time` set (an
`Option Unit` is either `none` or `some ()`). -/
theorem clickStart_eq (m : GameModel) :
    clickStart m = { m with start_time := some () } := by
  unfold clickStart
  cases hst : m.start_time with
  | none => rw [if_pos rfl]
  | some u =>
    cases u
    rw [if_neg (fun hc => Option.noConfusion hc), ← hst]

/-- The `on_click` on a revealed or flagged cell: only the start-time step
runs. -/
theorem on_click_rejected (s : GameState) (x y : Nat)
    (h : (getCell s.model x y).is_revealed = true ∨ (getCell s.model x y).is_flagged = true) :
    on_click s x y = { s with model := clickStart s.model } := by
  unfold on_click
  simp only
  rw [if_pos h]

/-- The `on_click` on an unrevealed, unflagged cell: the full reveal path,
written without the intermediate Python locals. -/
theorem on_click_proceed (s : GameState) (x y : Nat)
    (hg : ¬((getCell s.model x y).is_revealed = true ∨ (getCell s.model x y).is_flagged = true)) :
    on_click s x y =
      (let cell := getCell s.model x y
       let m2 := { setCell (clickStart s.model) x y { cell with is_revealed := true } with
         clicked_count := (clickStart s.model).clicked_count + 1 }
       if cell.is_mine then { model := m2, status := Status.lost }
       else if cell.has_treasure then { model := m2, status := Status.won }
       else
         let m3 := if cell.adjacent_mines = 0
           then reveal_empty_cells (m2.size_x * m2.size_y + 1) m2 [(x, y)]
           else m2
         if m3.clicked_count = totalSafeCells m3
           then { model := m3, status := Status.won }
           else { model := m3, status := s.status }) := by
  unfold on_click
  simp only
  rw [if_neg hg]
  rfl

/-- C5 (corrected): `on_click` on a revealed or flagged cell leaves every
cell, `clicked_count`, `flag_count` and the status unchanged, but it
sets `start_time` first — so after the call `start_time` is recorded
even when the reveal was rejected. -/
theorem claim_C5_reveal_noop (s : GameState) (x y : Nat)
    (h : (getCell s.model x y).is_revealed = true ∨ (getCell s.model x y).is_flagged = true) :
    on_click s x y = { s with model := { s.model with start_time := some () } } := by
  rw [on_click_rejected s x y h, clickStart_eq]

/-- C5 counterexample: clicking the flagged cell of `stateA` (where
`start_time` is still unset) is claimed to leave the state unchanged,
but the call records `start_time`. -/
theorem claim_C5_counterexample :
    (getCell stateA.model 0 0).is_flagged = true ∧
    stateA.model.start_time = none ∧
    (on_click stateA 0 0).model.start_time = some () ∧
    on_click stateA 0 0 ≠ stateA := by
  decide

theorem claim_C5_reveal_noop_witness :
    on_click stateA 0 0 = { stateA with model := { stateA.model with start_time := some () } } :=
  claim_C5_reveal_noop stateA 0 0 (Or.inr (by decide))

/-- The model component of an `on_click` result never depends on the
declared status. -/
theorem on_click_model_status_free (m : GameModel) (st1 st2 : Status) (x y : Nat) :
    (on_click ⟨m, st1⟩ x y).model = (on_click ⟨m, st2⟩ x y).model := by
  by_cases hg : ((getCell m x y).is_revealed = true ∨ (getCell m x y).is_flagged = true)
  · rw [on_click_rejected ⟨m, st1⟩ x y hg, on_click_rejected ⟨m, st2⟩ x y hg]
  · rw [on_click_proceed ⟨m, st1⟩ x y hg, on_click_proceed ⟨m, st2⟩ x y hg]
    simp only [apply_ite GameState.model]

/-- The model component of an `on_right_click` result never depends on
the declared status. -/
theorem on_right_click_model_status_free (m : GameModel) (st1 st2 : Status) (x y : Nat) :
    (on_right_click ⟨m, st1⟩ x y).model = (on_right_click ⟨m, st2⟩ x y).model := by
  unfold on_right_click
  simp only
  by_cases hrev : ((getCell m x y).is_revealed = true)
  · rw [if_pos hrev, if_pos hrev]
  · rw [if_neg hrev, if_neg hrev]
    by_cases hfl : ((getCell m x y).is_flagged = false)
    · rw [if_pos hfl, if_pos hfl]
    · rw [if_neg hfl, if_neg hfl]

/-- C4 (corrected): the controller consults the declared status nowhere —
a reveal or flag request is processed on the model identically whatever
the status is, so `Won`/`Lost` states do not reject mutation; only the
view layer stops the interaction loop. -/
theorem claim_C4_status_ignored (s : GameState) (st : Status) (x y : Int) :
    (handleReveal { model := s.model, status := st } x y).model
        = (handleReveal s x y).model ∧
    (handleFlag { model := s.model, status := st } x y).model
        = (handleFlag s x y).model := by
  obtain ⟨m, st0⟩ := s
  constructor
  · unfold handleReveal
    by_cases h : coordInBounds m x y
    · rw [if_pos h, if_pos h]
      exact on_click_model_status_free m st st0 x.toNat y.toNat
    · rw [if_neg h, if_neg h]
  · unfold handleFlag
    by_cases h : coordInBounds m x y
    · rw [if_pos h, if_pos h]
      exact on_right_click_model_status_free m st st0 x.toNat y.toNat
    · rw [if_neg h, if_neg h]

/-- C4 counterexample: `stateB` has been declared lost (its mine was
revealed), yet a further reveal request and a further flag request on
the remaining cell both mutate the state instead of being rejected. -/
theorem claim_C4_counterexample :
    stateB.status = Status.lost ∧
    handleReveal stateB 0 1 ≠ stateB ∧
    handleFlag stateB 0 1 ≠ stateB := by
  decide

/-- C8: a reveal or flag request whose coordinate fails the bounds guard
`0 <= x < size_x and 0 <= y < size_y` is rejected with the
out-of-bounds message and the state is returned unchanged. -/
theorem claim_C8_out_of_bounds (s : GameState) (x y : Int)
    (h : ¬ coordInBounds s.model x y) :
    handleReveal s x y = s ∧ handleFlag s x y = s ∧
      boundsMessage s.model x y = some ("Coordinates out of bounds.") := by
  refine ⟨?_, ?_, ?_⟩
  · unfold handleReveal; rw [if_neg h]
  · unfold handleFlag; rw [if_neg h]
  · unfold boundsMessage; rw [if_neg h]

theorem claim_C8_out_of_bounds_witness :
    handleReveal stateA (-1) 0 = stateA ∧ handleFlag stateA (-1) 0 = stateA ∧
      boundsMessage stateA.model (-1) 0 = some ("Coordinates out of bounds.") :=
  claim_C8_out_of_bounds stateA (-1) 0 (by decide)

/-! ## Static-field preservation through gameplay -/

theorem setCell_out_of_range (m : GameModel) (x y : Nat) (c : Cell)
    (h : ¬(x < m.board.length ∧ y < (m.board.getD x []).length)) :
    setCell m x y c = m := by
  unfold setCell
  by_cases hx : x < m.board.length
  · have hy : ¬ y < (m.board.getD x []).length := fun hy => h ⟨hx, hy⟩
    rw [List.set_eq_of_length_le (Nat.le_of_not_lt hy), set_getD_self]
  · rw [List.set_eq_of_length_le (Nat.le_of_not_lt hx)]

theorem getCell_setCell_cases (m : GameModel) (x y : Nat) (c : Cell) (i j : Nat) :
    getCell (setCell m x y c) i j = getCell m i j ∨
      (x = i ∧ y = j ∧ getCell (setCell m x y c) i j = c) := by
  by_cases h : x = i ∧ y = j
  · obtain ⟨rfl, rfl⟩ := h
    by_cases hb : x < m.board.length ∧ y < (m.board.getD x []).length
    · refine Or.inr ⟨rfl, rfl, ?_⟩
      unfold getCell setCell
      simp only
      rw [getD_set_self _ _ _ _ hb.1, getD_set_self _ _ _ _ hb.2]
    · rw [setCell_out_of_range m x y c hb]
      exact Or.inl rfl
  · exact Or.inl (getCell_setCell_ne m x y i j c h)

theorem getCell_clickedUpdate (m : GameModel) (v : Int) (x y : Nat) :
    getCell { m with clicked_count := v } x y = getCell m x y := rfl

theorem getCell_startUpdate (m : GameModel) (v : Option Unit) (x y : Nat) :
    getCell { m with start_time := v } x y = getCell m x y := rfl

theorem sameStatic_refl (m : GameModel) : SameStatic m m :=
  ⟨rfl, rfl, rfl, rfl, rfl, rfl, fun _ _ => ⟨rfl, rfl, rfl⟩⟩

theorem sameStatic_trans {m₁ m₂ m₃ : GameModel}
    (h12 : SameStatic m₁ m₂) (h23 : SameStatic m₂ m₃) : SameStatic m₁ m₃ := by
  refine ⟨h23.size_x.trans h12.size_x, h23.size_y.trans h12.size_y,
    h23.num_mines.trans h12.num_mines, h23.num_treasures.trans h12.num_treasures,
    h23.mines.trans h12.mines, h23.treasure_cells.trans h12.treasure_cells, ?_⟩
  intro i j
  obtain ⟨a1, b1, c1⟩ := h12.cellFields i j
  obtain ⟨a2, b2, c2⟩ := h23.cellFields i j
  exact ⟨a2.trans a1, b2.trans b1, c2.trans c1⟩

theorem sameFlags_refl (m : GameModel) : SameFlags m m := ⟨rfl, fun _ _ => rfl⟩

theorem sameFlags_trans {m₁ m₂ m₃ : GameModel}
    (h12 : SameFlags m₁ m₂) (h23 : SameFlags m₂ m₃) : SameFlags m₁ m₃ :=
  ⟨h23.1.trans h12.1, fun i j => (h23.2 i j).trans (h12.2 i j)⟩

theorem is_adjacent_congr {m m' : GameModel} (h : SameStatic m m') (i j : Nat) :
    is_adjacent_to_treasure m' i j = is_adjacent_to_treasure m i j := by
  unfold is_adjacent_to_treasure
  rw [h.treasure_cells, h.size_x, h.size_y]

/-- Revealing one cell (the `is_revealed = True; clicked_count += 1`
pair of statements): static fields, flags and `start_time` survive,
revealed cells stay revealed, and the only possibly-newly-revealed cell
is the target. -/
theorem revealUpdate_props (m : GameModel) (x y : Nat) (v : Int) :
    SameStatic m { setCell m x y { getCell m x y with is_revealed := true } with
      clicked_count := v } ∧
    SameFlags m { setCell m x y { getCell m x y with is_revealed := true } with
      clicked_count := v } ∧
    ({ setCell m x y { getCell m x y with is_revealed := true } with
      clicked_count := v } : GameModel).start_time = m.start_time ∧
    (∀ i j, (getCell m i j).is_revealed = true →
      (getCell { setCell m x y { getCell m x y with is_revealed := true } with
        clicked_count := v } i j).is_revealed = true) ∧
    (∀ i j, (getCell { setCell m x y { getCell m x y with is_revealed := true } with
        clicked_count := v } i j).is_revealed = true →
      (getCell m i j).is_revealed = true ∨ (x = i ∧ y = j)) := by
  refine ⟨⟨rfl, rfl, rfl, rfl, rfl, rfl, ?_⟩, ⟨rfl, ?_⟩, rfl, ?_, ?_⟩ <;> intro i j
  · rw [getCell_clickedUpdate]
    rcases getCell_setCell_cases m x y { getCell m x y with is_revealed := true } i j with
      h | ⟨rfl, rfl, h⟩ <;> rw [h] <;> exact ⟨rfl, rfl, rfl⟩
  · rw [getCell_clickedUpdate]
    rcases getCell_setCell_cases m x y { getCell m x y with is_revealed := true } i j with
      h | ⟨rfl, rfl, h⟩ <;> rw [h]
  · intro hrev
    rw [getCell_clickedUpdate]
    rcases getCell_setCell_cases m x y { getCell m x y with is_revealed := true } i j with
      h | ⟨rfl, rfl, h⟩
    · rw [h]; exact hrev
    · rw [h]
  · rw [getCell_clickedUpdate]
    rcases getCell_setCell_cases m x y { getCell m x y with is_revealed := true } i j with
      h | ⟨rfl, rfl, h⟩
    · rw [h]; intro hrev; exact Or.inl hrev
    · rw [h]; intro hrev; exact Or.inr ⟨rfl, rfl⟩

/-- One neighbour-scan step of the flood fill: static fields, flags and
`start_time` survive; revealed cells stay revealed; any cell revealed by
the step was unrevealed, mine-free, unflagged, treasure-free and not
treasure-adjacent beforehand. -/
theorem scanNeighbor_props (acc : GameModel × List (Nat × Nat)) (p : Nat × Nat) :
    SameStatic acc.1 (scanNeighbor acc p).1 ∧
    SameFlags acc.1 (scanNeighbor acc p).1 ∧
    (scanNeighbor acc p).1.start_time = acc.1.start_time ∧
    (∀ i j, (getCell acc.1 i j).is_revealed = true →
      (getCell (scanNeighbor acc p).1 i j).is_revealed = true) ∧
    (∀ i j, (getCell (scanNeighbor acc p).1 i j).is_revealed = true →
      (getCell acc.1 i j).is_revealed = true ∨
        ((getCell acc.1 i j).is_mine = false ∧ (getCell acc.1 i j).is_flagged = false ∧
         (getCell acc.1 i j).has_treasure = false ∧
         is_adjacent_to_treasure acc.1 i j = false)) := by
  have base : SameStatic acc.1 acc.1 ∧ SameFlags acc.1 acc.1 ∧
      acc.1.start_time = acc.1.start_time ∧
      (∀ i j, (getCell acc.1 i j).is_revealed = true →
        (getCell acc.1 i j).is_revealed = true) ∧
      (∀ i j, (getCell acc.1 i j).is_revealed = true →
        (getCell acc.1 i j).is_revealed = true ∨
          ((getCell acc.1 i j).is_mine = false ∧ (getCell acc.1 i j).is_flagged = false ∧
           (getCell acc.1 i j).has_treasure = false ∧
           is_adjacent_to_treasure acc.1 i j = false)) :=
    ⟨sameStatic_refl _, sameFlags_refl _, rfl, fun _ _ h => h, fun _ _ h => Or.inl h⟩
  unfold scanNeighbor
  simp only
  split
  case isFalse hcond => exact base
  case isTrue hcond =>
    obtain ⟨hrev, hmine, hflag⟩ := hcond
    split
    case isTrue htr => exact base
    case isFalse htr =>
      split
      case isTrue hadj => exact base
      case isFalse hadj =>
        have htr' : (getCell acc.1 p.1 p.2).has_treasure = false := by
          simpa using htr
        have hadj' : is_adjacent_to_treasure acc.1 p.1 p.2 = false := by
          simpa using hadj
        have hprops := revealUpdate_props acc.1 p.1 p.2
          ((setCell acc.1 p.1 p.2
            { getCell acc.1 p.1 p.2 with is_revealed := true }).clicked_count + 1)
        obtain ⟨hstat, hflags, hstart, hmono, hnew⟩ := hprops
        have hnew' : ∀ i j,
            (getCell ({ setCell acc.1 p.1 p.2
                { getCell acc.1 p.1 p.2 with is_revealed := true } with
              clicked_count := (setCell acc.1 p.1 p.2
                { getCell acc.1 p.1 p.2 with is_revealed := true }).clicked_count + 1 }
              : GameModel) i j).is_revealed = true →
            (getCell acc.1 i j).is_revealed = true ∨
              ((getCell acc.1 i j).is_mine = false ∧ (getCell acc.1 i j).is_flagged = false ∧
               (getCell acc.1 i j).has_treasure = false ∧
               is_adjacent_to_treasure acc.1 i j = false) := by
          intro i j hr
          rcases hnew i j hr with h | ⟨rfl, rfl⟩
          · exact Or.inl h
          · exact Or.inr ⟨hmine, hflag, htr', hadj'⟩
        split <;> exact ⟨hstat, hflags, hstart, hmono, hnew'⟩

/-- The `scanNeighbor_props` lifted over the whole neighbour list. -/
theorem foldl_scan_props (l : List (Nat × Nat)) (acc : GameModel × List (Nat × Nat)) :
    SameStatic acc.1 ((l.foldl scanNeighbor acc).1) ∧
    SameFlags acc.1 ((l.foldl scanNeighbor acc).1) ∧
    ((l.foldl scanNeighbor acc).1).start_time = acc.1.start_time ∧
    (∀ i j, (getCell acc.1 i j).is_revealed = true →
      (getCell ((l.foldl scanNeighbor acc).1) i j).is_revealed = true) ∧
    (∀ i j, (getCell ((l.foldl scanNeighbor acc).1) i j).is_revealed = true →
      (getCell acc.1 i j).is_revealed = true ∨
        ((getCell acc.1 i j).is_mine = false ∧ (getCell acc.1 i j).is_flagged = false ∧
         (getCell acc.1 i j).has_treasure = false ∧
         is_adjacent_to_treasure acc.1 i j = false)) := by
  induction l generalizing acc with
  | nil =>
    exact ⟨sameStatic_refl _, sameFlags_refl _, rfl, fun _ _ h => h, fun _ _ h => Or.inl h⟩
  | cons p rest ih =>
    obtain ⟨s1, f1, t1, mono1, new1⟩ := scanNeighbor_props acc p
    obtain ⟨s2, f2, t2, mono2, new2⟩ := ih (scanNeighbor acc p)
    rw [List.foldl_cons]
    refine ⟨sameStatic_trans s1 s2, sameFlags_trans f1 f2, t2.trans t1, ?_, ?_⟩
    · intro i j h
      exact mono2 i j (mono1 i j h)
    · intro i j h
      rcases new2 i j h with h2 | ⟨hm, hf, ht, ha⟩
      · exact new1 i j h2
      · obtain ⟨cm, ct, _⟩ := s1.cellFields i j
        refine Or.inr ⟨cm ▸ hm, (f1.2 i j) ▸ hf, ct ▸ ht, (is_adjacent_congr s1 i j) ▸ ha⟩

/-- The `scanNeighbor_props` lifted over the whole breadth-first loop. -/
theorem reveal_empty_cells_props (fuel : Nat) (m : GameModel) (q : List (Nat × Nat)) :
    SameStatic m (reveal_empty_cells fuel m q) ∧
    SameFlags m (reveal_empty_cells fuel m q) ∧
    (reveal_empty_cells fuel m q).start_time = m.start_time ∧
    (∀ i j, (getCell m i j).is_revealed = true →
      (getCell (reveal_empty_cells fuel m q) i j).is_revealed = true) ∧
    (∀ i j, (getCell (reveal_empty_cells fuel m q) i j).is_revealed = true →
      (getCell m i j).is_revealed = true ∨
        ((getCell m i j).is_mine = false ∧ (getCell m i j).is_flagged = false ∧
         (getCell m i j).has_treasure = false ∧
         is_adjacent_to_treasure m i j = false)) := by
  induction fuel generalizing m q with
  | zero =>
    exact ⟨sameStatic_refl _, sameFlags_refl _, rfl, fun _ _ h => h, fun _ _ h => Or.inl h⟩
  | succ fuel ih =>
    cases q with
    | nil =>
      exact ⟨sameStatic_refl _, sameFlags_refl _, rfl, fun _ _ h => h, fun _ _ h => Or.inl h⟩
    | cons c rest =>
      obtain ⟨s1, f1, t1, mono1, new1⟩ :=
        foldl_scan_props (get_neighbors m.size_x m.size_y c.1 c.2) (m, rest)
      obtain ⟨s2, f2, t2, mono2, new2⟩ := ih
        ((get_neighbors m.size_x m.size_y c.1 c.2).foldl scanNeighbor (m, rest)).1
        ((get_neighbors m.size_x m.size_y c.1 c.2).foldl scanNeighbor (m, rest)).2
      rw [show reveal_empty_cells (fuel + 1) m (c :: rest) = reveal_empty_cells fuel
        ((get_neighbors m.size_x m.size_y c.1 c.2).foldl scanNeighbor (m, rest)).1
        ((get_neighbors m.size_x m.size_y c.1 c.2).foldl scanNeighbor (m, rest)).2 from rfl]
      refine ⟨sameStatic_trans s1 s2, sameFlags_trans f1 f2, t2.trans t1, ?_, ?_⟩
      · intro i j h
        exact mono2 i j (mono1 i j h)
      · intro i j h
        rcases new2 i j h with h2 | ⟨hm, hf, ht, ha⟩
        · exact new1 i j h2
        · obtain ⟨cm, ct, _⟩ := s1.cellFields i j
          refine Or.inr ⟨cm ▸ hm, (f1.2 i j) ▸ hf, ct ▸ ht, (is_adjacent_congr s1 i j) ▸ ha⟩

theorem getCell_clickStart (m : GameModel) (x y : Nat) :
    getCell (clickStart m) x y = getCell m x y := by
  rw [clickStart_eq]; rfl

theorem clickStart_static (m : GameModel) :
    SameStatic m (clickStart m) ∧ SameFlags m (clickStart m) ∧
    (∀ i j, getCell (clickStart m) i j = getCell m i j) := by
  rw [clickStart_eq]
  exact ⟨⟨rfl, rfl, rfl, rfl, rfl, rfl, fun _ _ => ⟨rfl, rfl, rfl⟩⟩,
    ⟨rfl, fun _ _ => rfl⟩, fun _ _ => rfl⟩

/-- The model `m2` built by the reveal path of `on_click` (start-time
step, reveal the target, bump the counter), related back to the
original model. -/
theorem m2_props (m : GameModel) (x y : Nat) :
    SameStatic m { setCell (clickStart m) x y { getCell m x y with is_revealed := true } with
      clicked_count := (clickStart m).clicked_count + 1 } ∧
    SameFlags m { setCell (clickStart m) x y { getCell m x y with is_revealed := true } with
      clicked_count := (clickStart m).clicked_count + 1 } ∧
    (∀ i j, (getCell m i j).is_revealed = true →
      (getCell { setCell (clickStart m) x y { getCell m x y with is_revealed := true } with
        clicked_count := (clickStart m).clicked_count + 1 } i j).is_revealed = true) ∧
    (∀ i j, (getCell { setCell (clickStart m) x y
        { getCell m x y with is_revealed := true } with
        clicked_count := (clickStart m).clicked_count + 1 } i j).is_revealed = true →
      (getCell m i j).is_revealed = true ∨ (x = i ∧ y = j)) := by
  have hc := getCell_clickStart m x y
  have base := revealUpdate_props (clickStart m) x y ((clickStart m).clicked_count + 1)
  rw [hc] at base
  obtain ⟨s1, f1, _, mono1, new1⟩ := base
  obtain ⟨s0, f0, g0⟩ := clickStart_static m
  refine ⟨sameStatic_trans s0 s1, sameFlags_trans f0 f1, ?_, ?_⟩
  · intro i j h
    exact mono1 i j (by rw [g0 i j]; exact h)
  · intro i j h
    rcases new1 i j h with h1 | h1
    · exact Or.inl (by rw [← g0 i j]; exact h1)
    · exact Or.inr h1

/-- Full-click preservation: `on_click` keeps the static fields and the
flags, never unreveals a cell, and any newly revealed cell is either
the click target itself or satisfied all flood-fill auto-reveal
conditions beforehand. -/
theorem on_click_props (s : GameState) (x y : Nat) :
    SameStatic s.model (on_click s x y).model ∧
    SameFlags s.model (on_click s x y).model ∧
    (∀ i j, (getCell s.model i j).is_revealed = true →
      (getCell (on_click s x y).model i j).is_revealed = true) ∧
    (∀ i j, (getCell (on_click s x y).model i j).is_revealed = true →
      (getCell s.model i j).is_revealed = true ∨ (x = i ∧ y = j) ∨
        ((getCell s.model i j).is_mine = false ∧ (getCell s.model i j).is_flagged = false ∧
         (getCell s.model i j).has_treasure = false ∧
         is_adjacent_to_treasure s.model i j = false)) := by
  have hm2 := m2_props s.model x y
  obtain ⟨s2, f2, mono2, new2⟩ := hm2
  by_cases hg : ((getCell s.model x y).is_revealed = true ∨ (getCell s.model x y).is_flagged = true)
  · rw [on_click_rejected s x y hg, clickStart_eq]
    exact ⟨⟨rfl, rfl, rfl, rfl, rfl, rfl, fun _ _ => ⟨rfl, rfl, rfl⟩⟩,
      ⟨rfl, fun _ _ => rfl⟩, fun _ _ h => h, fun _ _ h => Or.inl h⟩
  · rw [on_click_proceed s x y hg]
    simp only
    by_cases hmine : ((getCell s.model x y).is_mine = true)
    · rw [if_pos hmine]
      exact ⟨s2, f2, mono2, fun i j h => (new2 i j h).elim Or.inl (fun h => Or.inr (Or.inl h))⟩
    · rw [if_neg hmine]
      by_cases htr : ((getCell s.model x y).has_treasure = true)
      · rw [if_pos htr]
        exact ⟨s2, f2, mono2, fun i j h => (new2 i j h).elim Or.inl (fun h => Or.inr (Or.inl h))⟩
      · rw [if_neg htr]
        by_cases hadj : ((getCell s.model x y).adjacent_mines = 0)
        · rw [if_pos hadj]
          simp only [apply_ite GameState.model, ite_self]
          obtain ⟨s3, f3, _, mono3, new3⟩ := reveal_empty_cells_props
            (({ setCell (clickStart s.model) x y
                { getCell s.model x y with is_revealed := true } with
              clicked_count := (clickStart s.model).clicked_count + 1 } : GameModel).size_x *
             ({ setCell (clickStart s.model) x y
                { getCell s.model x y with is_revealed := true } with
              clicked_count := (clickStart s.model).clicked_count + 1 } : GameModel).size_y + 1)
            { setCell (clickStart s.model) x y
                { getCell s.model x y with is_revealed := true } with
              clicked_count := (clickStart s.model).clicked_count + 1 }
            [(x, y)]
          refine ⟨sameStatic_trans s2 s3, sameFlags_trans f2 f3, ?_, ?_⟩
          · intro i j h
            exact mono3 i j (mono2 i j h)
          · intro i j h
            rcases new3 i j h with h3 | ⟨hm, hf, ht, ha⟩
            · exact (new2 i j h3).elim Or.inl (fun h => Or.inr (Or.inl h))
            · obtain ⟨cm, ct, _⟩ := s2.cellFields i j
              exact Or.inr (Or.inr ⟨cm ▸ hm, (f2.2 i j) ▸ hf, ct ▸ ht,
                (is_adjacent_congr s2 i j) ▸ ha⟩)
        · rw [if_neg hadj]
          simp only [apply_ite GameState.model, ite_self]
          exact ⟨s2, f2, mono2, fun i j h => (new2 i j h).elim Or.inl (fun h => Or.inr (Or.inl h))⟩

theorem totalSafe_congr {m m' : GameModel} (h : SameStatic m m') :
    totalSafeCells m' = totalSafeCells m := by
  unfold totalSafeCells
  rw [h.size_x, h.size_y, h.mines, h.num_treasures]

theorem win_if_iff (m3 : GameModel) (st : Status) (hst : st = Status.inProgress)
    (T : Int) (hT : totalSafeCells m3 = T) :
    ((if m3.clicked_count = totalSafeCells m3 then (⟨m3, Status.won⟩ : GameState)
      else ⟨m3, st⟩).status = Status.won ↔
     (if m3.clicked_count = totalSafeCells m3 then (⟨m3, Status.won⟩ : GameState)
      else ⟨m3, st⟩).model.clicked_count = T) := by
  subst hT
  subst hst
  by_cases h : m3.clicked_count = totalSafeCells m3
  · rw [if_pos h]
    simp [h]
  · rw [if_neg h]
    simp [h]

/-- C2: a reveal of an unrevealed, unflagged, non-mine, non-treasure
cell from an in-progress game is declared won exactly when the updated
`clicked_count` equals `size_x*size_y - mines - num_treasures`. -/
theorem claim_C2_win_condition (s : GameState) (x y : Nat)
    (hg : ¬((getCell s.model x y).is_revealed = true ∨ (getCell s.model x y).is_flagged = true))
    (hm : (getCell s.model x y).is_mine = false)
    (ht : (getCell s.model x y).has_treasure = false)
    (hst : s.status = Status.inProgress) :
    ((on_click s x y).status = Status.won ↔
      (on_click s x y).model.clicked_count =
        (s.model.size_x : Int) * (s.model.size_y : Int)
          - (s.model.mines : Int) - (s.model.num_treasures : Int)) := by
  have hm' : ¬((getCell s.model x y).is_mine = true) := by
    rw [hm]; exact Bool.false_ne_true
  have ht' : ¬((getCell s.model x y).has_treasure = true) := by
    rw [ht]; exact Bool.false_ne_true
  rw [on_click_proceed s x y hg]
  simp only
  rw [if_neg hm', if_neg ht']
  set M2 : GameModel := { setCell (clickStart s.model) x y
    { getCell s.model x y with is_revealed := true } with
    clicked_count := (clickStart s.model).clicked_count + 1 } with hM2
  set M3 : GameModel := if (getCell s.model x y).adjacent_mines = 0
    then reveal_empty_cells (M2.size_x * M2.size_y + 1) M2 [(x, y)] else M2 with hM3
  have hs3 : SameStatic s.model M3 := by
    rw [hM3]
    split
    · exact sameStatic_trans (m2_props s.model x y).1 (reveal_empty_cells_props _ _ _).1
    · exact (m2_props s.model x y).1
  have hT : totalSafeCells M3 = (s.model.size_x : Int) * (s.model.size_y : Int)
      - (s.model.mines : Int) - (s.model.num_treasures : Int) := by
    rw [totalSafe_congr hs3]; rfl
  exact win_if_iff M3 s.status hst _ hT

set_option maxRecDepth 100000 in
theorem claim_C2_win_condition_witness :
    (on_click stateC 0 0).status = Status.won ∧
    (on_click stateC 0 0).model.clicked_count = 53 := by
  have h := claim_C2_win_condition stateC 0 0 (by decide) (by decide) (by decide) (by decide)
  exact ⟨h.mpr (by decide), by decide⟩

theorem getCell_flagCountUpdate (m : GameModel) (v : Int) (x y : Nat) :
    getCell { m with flag_count := v } x y = getCell m x y := rfl

theorem treasureGuard_congr {m m' : GameModel} (h : SameStatic m m') (i j : Nat) :
    treasureGuard m' i j ↔ treasureGuard m i j := by
  unfold treasureGuard
  rw [(h.cellFields i j).2.1, is_adjacent_congr h]

/-- Setting only the flag bit of one cell (plus the flag counter):
static fields survive and no cell's revealed state moves. -/
theorem flagSet_props (m : GameModel) (x y : Nat) (b : Bool) (v : Int) :
    SameStatic m { setCell m x y { getCell m x y with is_flagged := b } with
      flag_count := v } ∧
    ∀ i j, (getCell { setCell m x y { getCell m x y with is_flagged := b } with
      flag_count := v } i j).is_revealed = (getCell m i j).is_revealed := by
  constructor
  · refine ⟨rfl, rfl, rfl, rfl, rfl, rfl, ?_⟩
    intro i j
    rw [getCell_flagCountUpdate]
    rcases getCell_setCell_cases m x y { getCell m x y with is_flagged := b } i j with
      h | ⟨rfl, rfl, h⟩ <;> rw [h] <;> exact ⟨rfl, rfl, rfl⟩
  · intro i j
    rw [getCell_flagCountUpdate]
    rcases getCell_setCell_cases m x y { getCell m x y with is_flagged := b } i j with
      h | ⟨rfl, rfl, h⟩ <;> rw [h]

/-- The `on_right_click` keeps static fields and every cell's revealed
state. -/
theorem on_right_click_props (s : GameState) (x y : Nat) :
    SameStatic s.model (on_right_click s x y).model ∧
    ∀ i j, (getCell (on_right_click s x y).model i j).is_revealed
      = (getCell s.model i j).is_revealed := by
  unfold on_right_click
  simp only
  split
  · exact ⟨sameStatic_refl _, fun _ _ => rfl⟩
  · split
    · exact flagSet_props s.model x y true (s.model.flag_count + 1)
    · exact flagSet_props s.model x y false (s.model.flag_count - 1)

/-- One request (reveal or flag, with the view-layer bounds guard):
static fields survive, revealed cells stay revealed, and any newly
revealed cell is either the direct target of this very reveal request
or was no mine, unflagged, no treasure and not treasure-adjacent. -/
theorem applyOp_props (s : GameState) (op : Op) :
    SameStatic s.model (applyOp s op).model ∧
    (∀ i j, (getCell s.model i j).is_revealed = true →
      (getCell (applyOp s op).model i j).is_revealed = true) ∧
    (∀ i j, (getCell (applyOp s op).model i j).is_revealed = true →
      (getCell s.model i j).is_revealed = true ∨ op = Op.reveal i j ∨
        ¬ treasureGuard s.model i j) := by
  cases op with
  | reveal x y =>
    simp only [applyOp]
    unfold handleReveal
    split
    case isFalse h =>
      exact ⟨sameStatic_refl _, fun _ _ h => h, fun _ _ h => Or.inl h⟩
    case isTrue h =>
      obtain ⟨hx0, hxlt, hy0, hylt⟩ := h
      obtain ⟨s1, _, mono1, new1⟩ := on_click_props s x.toNat y.toNat
      refine ⟨s1, mono1, ?_⟩
      intro i j hr
      rcases new1 i j hr with h1 | ⟨rfl, rfl⟩ | ⟨_, _, ht, ha⟩
      · exact Or.inl h1
      · refine Or.inr (Or.inl ?_)
        have hx : x = (x.toNat : Int) := (Int.toNat_of_nonneg hx0).symm
        have hy : y = (y.toNat : Int) := (Int.toNat_of_nonneg hy0).symm
        rw [← hx, ← hy]
      · refine Or.inr (Or.inr ?_)
        intro hguard
        rcases hguard with hguard | hguard
        · rw [ht] at hguard; exact Bool.false_ne_true hguard
        · rw [ha] at hguard; exact Bool.false_ne_true hguard
  | flag x y =>
    simp only [applyOp]
    unfold handleFlag
    split
    case isFalse h =>
      exact ⟨sameStatic_refl _, fun _ _ h => h, fun _ _ h => Or.inl h⟩
    case isTrue h =>
      obtain ⟨s1, hrev⟩ := on_right_click_props s x.toNat y.toNat
      exact ⟨s1, fun i j h => (hrev i j).trans h,
        fun i j hr => Or.inl ((hrev i j).symm.trans hr)⟩

/-- The `applyOp_props` lifted to request sequences. -/
theorem applyOps_props (s : GameState) (ops : List Op) :
    SameStatic s.model (applyOps s ops).model ∧
    (∀ i j, (getCell s.model i j).is_revealed = true →
      (getCell (applyOps s ops).model i j).is_revealed = true) ∧
    (∀ i j, (getCell (applyOps s ops).model i j).is_revealed = true →
      (getCell s.model i j).is_revealed = true ∨ Op.reveal i j ∈ ops ∨
        ¬ treasureGuard s.model i j) := by
  induction ops generalizing s with
  | nil => exact ⟨sameStatic_refl _, fun _ _ h => h, fun _ _ h => Or.inl h⟩
  | cons op rest ih =>
    obtain ⟨s1, mono1, new1⟩ := applyOp_props s op
    obtain ⟨s2, mono2, new2⟩ := ih (applyOp s op)
    rw [show applyOps s (op :: rest) = applyOps (applyOp s op) rest from rfl]
    refine ⟨sameStatic_trans s1 s2, fun i j h => mono2 i j (mono1 i j h), ?_⟩
    intro i j hr
    rcases new2 i j hr with h2 | h2 | h2
    · rcases new1 i j h2 with h1 | h1 | h1
      · exact Or.inl h1
      · exact Or.inr (Or.inl (h1 ▸ List.mem_cons_self op rest))
      · exact Or.inr (Or.inr h1)
    · exact Or.inr (Or.inl (List.mem_cons_of_mem op h2))
    · exact Or.inr (Or.inr (fun hg => h2 ((treasureGuard_congr s1 i j).mpr hg)))

/-- C1: (a) during a reveal cascade, any cell revealed besides the
direct target was unrevealed (hypothesis), not a mine, not flagged, not
a treasure cell, and not king-move-adjacent to any treasure; (b) hence
from a fresh board, after any request sequence, every revealed cell in
the treasure-protected zone was the direct target of a reveal request. -/
theorem claim_C1_treasure_avoidance :
    (∀ (s : GameState) (x y i j : Nat),
      (getCell (on_click s x y).model i j).is_revealed = true →
      (getCell s.model i j).is_revealed = false →
      ¬(x = i ∧ y = j) →
      (getCell s.model i j).is_mine = false ∧ (getCell s.model i j).is_flagged = false ∧
      (getCell s.model i j).has_treasure = false ∧
      is_adjacent_to_treasure s.model i j = false) ∧
    (∀ (s : GameState) (ops : List Op) (i j : Nat),
      (∀ a b, (getCell s.model a b).is_revealed = false) →
      (getCell (applyOps s ops).model i j).is_revealed = true →
      treasureGuard (applyOps s ops).model i j →
      Op.reveal (i : Int) (j : Int) ∈ ops) := by
  constructor
  · intro s x y i j hrev hbefore hne
    rcases (on_click_props s x y).2.2.2 i j hrev with h | h | h
    · rw [hbefore] at h; exact absurd h Bool.false_ne_true
    · exact absurd h hne
    · exact h
  · intro s ops i j hfresh hrev hguard
    obtain ⟨sstat, _, hnew⟩ := applyOps_props s ops
    rcases hnew i j hrev with h | h | h
    · rw [hfresh i j] at h; exact absurd h Bool.false_ne_true
    · exact h
    · exact absurd ((treasureGuard_congr sstat i j).mp hguard) h

theorem getCell_out_of_range (m : GameModel) (a b : Nat)
    (h : ¬(a < m.board.length ∧ b < (m.board.getD a []).length)) :
    getCell m a b = defaultCell := by
  unfold getCell
  by_cases ha : a < m.board.length
  · have hb : ¬ b < (m.board.getD a []).length := fun hb => h ⟨ha, hb⟩
    rw [List.getD_eq_getElem?_getD (m.board.getD a []),
      List.getElem?_eq_none (Nat.le_of_not_lt hb)]
    rfl
  · rw [List.getD_eq_getElem?_getD m.board, List.getElem?_eq_none (Nat.le_of_not_lt ha)]
    rfl

theorem allUnrevealed_of_bounded (m : GameModel)
    (h : ∀ a, a < m.board.length → ∀ b, b < (m.board.getD a []).length →
      (getCell m a b).is_revealed = false) :
    ∀ a b, (getCell m a b).is_revealed = false := by
  intro a b
  by_cases hin : a < m.board.length ∧ b < (m.board.getD a []).length
  · exact h a hin.1 b hin.2
  · rw [getCell_out_of_range m a b hin]; rfl

theorem claim_C1_treasure_avoidance_witness :
    Op.reveal ((1 : Nat) : Int) ((1 : Nat) : Int) ∈ [Op.reveal 1 1] :=
  claim_C1_treasure_avoidance.2 (initState modelD) [Op.reveal 1 1] 1 1
    (allUnrevealed_of_bounded _ (by decide)) (by decide) (by decide)

/-! ## Clicked-count accounting -/

theorem get_neighbors_bounds (sx sy x y : Nat) (p : Nat × Nat)
    (h : p ∈ get_neighbors sx sy x y) : p.1 < sx ∧ p.2 < sy := by
  unfold get_neighbors at h
  rw [List.mem_filterMap] at h
  obtain ⟨d, _, hd⟩ := h
  simp only [neighborOf] at hd
  split at hd
  case isTrue hcond =>
    obtain ⟨-, h1, h2, h3, h4⟩ := hcond
    cases hd
    constructor <;> simp <;> omega
  case isFalse hcond => cases hd

theorem revealedCount_congr (m m' : GameModel) (hsx : m'.size_x = m.size_x)
    (hsy : m'.size_y = m.size_y)
    (h : ∀ i j, (getCell m' i j).is_revealed = (getCell m i j).is_revealed) :
    revealedCount m' = revealedCount m := by
  unfold revealedCount
  rw [hsx, hsy]
  congr 1
  apply Finset.filter_congr
  intro p _
  rw [h p.1 p.2]

theorem revealedCount_setReveal (m : GameModel) (x y : Nat)
    (hwf : boardWF m) (hx : x < m.size_x) (hy : y < m.size_y)
    (hrev : (getCell m x y).is_revealed = false) :
    revealedCount (setCell m x y { getCell m x y with is_revealed := true })
      = revealedCount m + 1 := by
  unfold revealedCount
  have hsel : getCell (setCell m x y { getCell m x y with is_revealed := true }) x y
      = { getCell m x y with is_revealed := true } :=
    getCell_setCell_self m x y _ hwf hx hy
  have hset : ((Finset.range (setCell m x y
        { getCell m x y with is_revealed := true }).size_x ×ˢ
      Finset.range (setCell m x y
        { getCell m x y with is_revealed := true }).size_y).filter fun p =>
      (getCell (setCell m x y { getCell m x y with is_revealed := true })
        p.1 p.2).is_revealed = true)
      = insert (x, y) ((Finset.range m.size_x ×ˢ Finset.range m.size_y).filter fun p =>
          (getCell m p.1 p.2).is_revealed = true) := by
    ext p
    simp only [Finset.mem_filter, Finset.mem_insert, Finset.mem_product, Finset.mem_range]
    constructor
    · rintro ⟨⟨hp1, hp2⟩, hp3⟩
      by_cases hp : (x, y) = p
      · exact Or.inl hp.symm
      · refine Or.inr ⟨⟨hp1, hp2⟩, ?_⟩
        have hne : ¬(x = p.1 ∧ y = p.2) := by
          intro ⟨h1, h2⟩; exact hp (Prod.ext h1 h2)
        rw [← getCell_setCell_ne m x y p.1 p.2
          { getCell m x y with is_revealed := true } hne]
        exact hp3
    · rintro (rfl | ⟨⟨hp1, hp2⟩, hp3⟩)
      · exact ⟨⟨hx, hy⟩, by rw [hsel]⟩
      · by_cases hp : x = p.1 ∧ y = p.2
        · obtain ⟨rfl, rfl⟩ := hp
          exact ⟨⟨hp1, hp2⟩, by rw [hsel]⟩
        · refine ⟨⟨hp1, hp2⟩, ?_⟩
          rw [getCell_setCell_ne m x y p.1 p.2
            { getCell m x y with is_revealed := true } hp]
          exact hp3
  rw [hset, Finset.card_insert_of_not_mem]
  simp only [Finset.mem_filter, not_and]
  intro _
  rw [hrev]
  exact Bool.false_ne_true

/-- One neighbour-scan step: the board stays well-formed and the
difference `clicked_count − revealedCount` is unchanged (every reveal
bumps the counter exactly once). -/
theorem scanNeighbor_count (acc : GameModel × List (Nat × Nat)) (p : Nat × Nat)
    (hwf : boardWF acc.1) (hp1 : p.1 < acc.1.size_x) (hp2 : p.2 < acc.1.size_y) :
    boardWF (scanNeighbor acc p).1 ∧
    (scanNeighbor acc p).1.clicked_count - (revealedCount (scanNeighbor acc p).1 : Int)
      = acc.1.clicked_count - (revealedCount acc.1 : Int) := by
  unfold scanNeighbor
  simp only
  split
  case isFalse hcond => exact ⟨hwf, rfl⟩
  case isTrue hcond =>
    obtain ⟨hrev, _, _⟩ := hcond
    split
    case isTrue htr => exact ⟨hwf, rfl⟩
    case isFalse htr =>
      split
      case isTrue hadj => exact ⟨hwf, rfl⟩
      case isFalse hadj =>
        have hcount := revealedCount_setReveal acc.1 p.1 p.2 hwf hp1 hp2 hrev
        have hwf' : boardWF (setCell acc.1 p.1 p.2
            { getCell acc.1 p.1 p.2 with is_revealed := true }) :=
          boardWF_setCell acc.1 p.1 p.2 _ hwf
        have key : boardWF ({ setCell acc.1 p.1 p.2
              { getCell acc.1 p.1 p.2 with is_revealed := true } with
            clicked_count := (setCell acc.1 p.1 p.2
              { getCell acc.1 p.1 p.2 with is_revealed := true }).clicked_count + 1 }
            : GameModel) ∧
            ({ setCell acc.1 p.1 p.2
              { getCell acc.1 p.1 p.2 with is_revealed := true } with
            clicked_count := (setCell acc.1 p.1 p.2
              { getCell acc.1 p.1 p.2 with is_revealed := true }).clicked_count + 1 }
            : GameModel).clicked_count -
            (revealedCount ({ setCell acc.1 p.1 p.2
              { getCell acc.1 p.1 p.2 with is_revealed := true } with
            clicked_count := (setCell acc.1 p.1 p.2
              { getCell acc.1 p.1 p.2 with is_revealed := true }).clicked_count + 1 }
            : GameModel) : Int)
            = acc.1.clicked_count - (revealedCount acc.1 : Int) := by
          constructor
          · exact hwf'
          · have hrc : revealedCount ({ setCell acc.1 p.1 p.2
                { getCell acc.1 p.1 p.2 with is_revealed := true } with
              clicked_count := (setCell acc.1 p.1 p.2
                { getCell acc.1 p.1 p.2 with is_revealed := true }).clicked_count + 1 }
              : GameModel) = revealedCount acc.1 + 1 :=
              (revealedCount_congr _ _ rfl rfl (fun _ _ => rfl)).trans hcount
            have hcl : ({ setCell acc.1 p.1 p.2
                { getCell acc.1 p.1 p.2 with is_revealed := true } with
              clicked_count := (setCell acc.1 p.1 p.2
                { getCell acc.1 p.1 p.2 with is_revealed := true }).clicked_count + 1 }
              : GameModel).clicked_count = acc.1.clicked_count + 1 := rfl
            rw [hrc, hcl]
            push_cast
            ring
        split <;> exact key

theorem foldl_scan_count (l : List (Nat × Nat)) (acc : GameModel × List (Nat × Nat))
    (hwf : boardWF acc.1)
    (hl : ∀ p ∈ l, p.1 < acc.1.size_x ∧ p.2 < acc.1.size_y) :
    boardWF ((l.foldl scanNeighbor acc).1) ∧
    ((l.foldl scanNeighbor acc).1).clicked_count
        - (revealedCount ((l.foldl scanNeighbor acc).1) : Int)
      = acc.1.clicked_count - (revealedCount acc.1 : Int) := by
  induction l generalizing acc with
  | nil => exact ⟨hwf, rfl⟩
  | cons p rest ih =>
    obtain ⟨hp1, hp2⟩ := hl p (List.mem_cons_self p rest)
    obtain ⟨hwf1, hc1⟩ := scanNeighbor_count acc p hwf hp1 hp2
    have hsz := (scanNeighbor_props acc p).1
    have hl' : ∀ q ∈ rest, q.1 < (scanNeighbor acc p).1.size_x ∧
        q.2 < (scanNeighbor acc p).1.size_y := by
      intro q hq
      obtain ⟨h1, h2⟩ := hl q (List.mem_cons_of_mem p hq)
      exact ⟨hsz.size_x ▸ h1, hsz.size_y ▸ h2⟩
    obtain ⟨hwf2, hc2⟩ := ih (scanNeighbor acc p) hwf1 hl'
    rw [List.foldl_cons]
    exact ⟨hwf2, hc2.trans hc1⟩

theorem reveal_empty_cells_count (fuel : Nat) (m : GameModel) (q : List (Nat × Nat))
    (hwf : boardWF m) :
    boardWF (reveal_empty_cells fuel m q) ∧
    (reveal_empty_cells fuel m q).clicked_count
        - (revealedCount (reveal_empty_cells fuel m q) : Int)
      = m.clicked_count - (revealedCount m : Int) := by
  induction fuel generalizing m q with
  | zero => exact ⟨hwf, rfl⟩
  | succ fuel ih =>
    cases q with
    | nil => exact ⟨hwf, rfl⟩
    | cons c rest =>
      have hl : ∀ p ∈ get_neighbors m.size_x m.size_y c.1 c.2,
          p.1 < ((m, rest) : GameModel × List (Nat × Nat)).1.size_x ∧
          p.2 < ((m, rest) : GameModel × List (Nat × Nat)).1.size_y :=
        fun p hp => get_neighbors_bounds m.size_x m.size_y c.1 c.2 p hp
      obtain ⟨hwf1, hc1⟩ := foldl_scan_count
        (get_neighbors m.size_x m.size_y c.1 c.2) (m, rest) hwf hl
      obtain ⟨hwf2, hc2⟩ := ih
        ((get_neighbors m.size_x m.size_y c.1 c.2).foldl scanNeighbor (m, rest)).1
        ((get_neighbors m.size_x m.size_y c.1 c.2).foldl scanNeighbor (m, rest)).2
        hwf1
      rw [show reveal_empty_cells (fuel + 1) m (c :: rest) = reveal_empty_cells fuel
        ((get_neighbors m.size_x m.size_y c.1 c.2).foldl scanNeighbor (m, rest)).1
        ((get_neighbors m.size_x m.size_y c.1 c.2).foldl scanNeighbor (m, rest)).2 from rfl]
      exact ⟨hwf2, hc2.trans hc1⟩

theorem on_click_count (s : GameState) (x y : Nat)
    (hwf : boardWF s.model) (hx : x < s.model.size_x) (hy : y < s.model.size_y) :
    boardWF (on_click s x y).model ∧
    (on_click s x y).model.clicked_count
        - (revealedCount (on_click s x y).model : Int)
      = s.model.clicked_count - (revealedCount s.model : Int) := by
  have hwf0 : boardWF (clickStart s.model) := by rw [clickStart_eq]; exact hwf
  by_cases hg : ((getCell s.model x y).is_revealed = true ∨ (getCell s.model x y).is_flagged = true)
  · rw [on_click_rejected s x y hg, clickStart_eq]
    exact ⟨hwf, rfl⟩
  · rw [on_click_proceed s x y hg]
    simp only
    have hrev : (getCell s.model x y).is_revealed = false := by
      cases hr : (getCell s.model x y).is_revealed
      · rfl
      · exact absurd (Or.inl hr) hg
    have hrev0 : (getCell (clickStart s.model) x y).is_revealed = false := by
      rw [getCell_clickStart]; exact hrev
    have hx0 : x < (clickStart s.model).size_x := by rw [clickStart_eq]; exact hx
    have hy0 : y < (clickStart s.model).size_y := by rw [clickStart_eq]; exact hy
    have hcell : ({ getCell s.model x y with is_revealed := true } : Cell)
        = { getCell (clickStart s.model) x y with is_revealed := true } := by
      rw [getCell_clickStart]
    have hcount : revealedCount (setCell (clickStart s.model) x y
        { getCell s.model x y with is_revealed := true }) = revealedCount (clickStart s.model) + 1 := by
      rw [hcell]
      exact revealedCount_setReveal (clickStart s.model) x y hwf0 hx0 hy0 hrev0
    have hrcs : revealedCount (clickStart s.model) = revealedCount s.model := by
      rw [clickStart_eq]
      exact revealedCount_congr _ _ rfl rfl (fun _ _ => rfl)
    have hcls : (clickStart s.model).clicked_count = s.model.clicked_count := by
      rw [clickStart_eq]
    have hwf2 : boardWF ({ setCell (clickStart s.model) x y
        { getCell s.model x y with is_revealed := true } with
        clicked_count := (clickStart s.model).clicked_count + 1 } : GameModel) :=
      boardWF_setCell (clickStart s.model) x y _ hwf0
    have hm2 : ({ setCell (clickStart s.model) x y
          { getCell s.model x y with is_revealed := true } with
        clicked_count := (clickStart s.model).clicked_count + 1 } : GameModel).clicked_count
          - (revealedCount ({ setCell (clickStart s.model) x y
          { getCell s.model x y with is_revealed := true } with
        clicked_count := (clickStart s.model).clicked_count + 1 } : GameModel) : Int)
        = s.model.clicked_count - (revealedCount s.model : Int) := by
      have h1 : revealedCount ({ setCell (clickStart s.model) x y
          { getCell s.model x y with is_revealed := true } with
          clicked_count := (clickStart s.model).clicked_count + 1 } : GameModel)
          = revealedCount s.model + 1 :=
        ((revealedCount_congr _ _ rfl rfl (fun _ _ => rfl)).trans hcount).trans
          (by rw [hrcs])
      have h2 : ({ setCell (clickStart s.model) x y
          { getCell s.model x y with is_revealed := true } with
          clicked_count := (clickStart s.model).clicked_count + 1 } : GameModel).clicked_count
          = s.model.clicked_count + 1 := by
        show (clickStart s.model).clicked_count + 1 = s.model.clicked_count + 1
        rw [hcls]
      rw [h1, h2]
      push_cast
      ring
    by_cases hmine : ((getCell s.model x y).is_mine = true)
    · rw [if_pos hmine]
      exact ⟨hwf2, hm2⟩
    · rw [if_neg hmine]
      by_cases htr : ((getCell s.model x y).has_treasure = true)
      · rw [if_pos htr]
        exact ⟨hwf2, hm2⟩
      · rw [if_neg htr]
        by_cases hadj : ((getCell s.model x y).adjacent_mines = 0)
        · rw [if_pos hadj]
          simp only [apply_ite GameState.model, ite_self]
          obtain ⟨hwf3, hc3⟩ := reveal_empty_cells_count _ _ [(x, y)] hwf2
          exact ⟨hwf3, hc3.trans hm2⟩
        · rw [if_neg hadj]
          simp only [apply_ite GameState.model, ite_self]
          exact ⟨hwf2, hm2⟩

theorem on_right_click_count (s : GameState) (x y : Nat) (hwf : boardWF s.model) :
    boardWF (on_right_click s x y).model ∧
    (on_right_click s x y).model.clicked_count
        - (revealedCount (on_right_click s x y).model : Int)
      = s.model.clicked_count - (revealedCount s.model : Int) := by
  unfold on_right_click
  simp only
  split
  · exact ⟨hwf, rfl⟩
  · have key : ∀ (b : Bool) (v : Int),
        boardWF ({ setCell s.model x y { getCell s.model x y with is_flagged := b } with
          flag_count := v } : GameModel) ∧
        ({ setCell s.model x y { getCell s.model x y with is_flagged := b } with
          flag_count := v } : GameModel).clicked_count
          - (revealedCount ({ setCell s.model x y
            { getCell s.model x y with is_flagged := b } with
          flag_count := v } : GameModel) : Int)
        = s.model.clicked_count - (revealedCount s.model : Int) := by
      intro b v
      refine ⟨boardWF_setCell s.model x y _ hwf, ?_⟩
      have h1 : revealedCount ({ setCell s.model x y
          { getCell s.model x y with is_flagged := b } with
          flag_count := v } : GameModel) = revealedCount s.model :=
        revealedCount_congr _ _ rfl rfl (flagSet_props s.model x y b v).2
      rw [h1]
      rfl
    split
    · exact key true (s.model.flag_count + 1)
    · exact key false (s.model.flag_count - 1)

theorem applyOps_count (s : GameState) (ops : List Op) (hwf : boardWF s.model) :
    boardWF (applyOps s ops).model ∧
    (applyOps s ops).model.clicked_count
        - (revealedCount (applyOps s ops).model : Int)
      = s.model.clicked_count - (revealedCount s.model : Int) := by
  induction ops generalizing s with
  | nil => exact ⟨hwf, rfl⟩
  | cons op rest ih =>
    have hstep : boardWF (applyOp s op).model ∧
        (applyOp s op).model.clicked_count
            - (revealedCount (applyOp s op).model : Int)
          = s.model.clicked_count - (revealedCount s.model : Int) := by
      cases op with
      | reveal x y =>
        simp only [applyOp]
        unfold handleReveal
        split
        case isFalse h => exact ⟨hwf, rfl⟩
        case isTrue h =>
          obtain ⟨hx0, hxlt, hy0, hylt⟩ := h
          exact on_click_count s x.toNat y.toNat hwf (by omega) (by omega)
      | flag x y =>
        simp only [applyOp]
        unfold handleFlag
        split
        case isFalse h => exact ⟨hwf, rfl⟩
        case isTrue h => exact on_right_click_count s x.toNat y.toNat hwf
    obtain ⟨hwf1, hc1⟩ := hstep
    obtain ⟨hwf2, hc2⟩ := ih (applyOp s op) hwf1
    rw [show applyOps s (op :: rest) = applyOps (applyOp s op) rest from rfl]
    exact ⟨hwf2, hc2.trans hc1⟩

/-- C9 (corrected): along any request sequence, `clicked_count` equals
the number of revealed cells — including a revealed mine or treasure,
which the counter does count; it therefore matches the number of
revealed safe cells exactly in those states where no mine or treasure
cell is revealed. -/
theorem claim_C9_clicked_count :
    (∀ (s : GameState) (ops : List Op),
      boardWF s.model → s.model.clicked_count = (revealedCount s.model : Int) →
      (applyOps s ops).model.clicked_count
        = (revealedCount (applyOps s ops).model : Int)) ∧
    (∀ m : GameModel,
      (∀ i j, i < m.size_x → j < m.size_y → (getCell m i j).is_revealed = true →
        (getCell m i j).is_mine = false ∧ (getCell m i j).has_treasure = false) →
      revealedCount m = safeRevealedCount m) := by
  constructor
  · intro s ops hwf hinv
    have h := (applyOps_count s ops hwf).2
    omega
  · intro m hsafe
    unfold revealedCount safeRevealedCount
    congr 1
    apply Finset.filter_congr
    intro p hp
    simp only [Finset.mem_product, Finset.mem_range] at hp
    constructor
    · intro h
      exact ⟨h, (hsafe p.1 p.2 hp.1 hp.2 h).1, (hsafe p.1 p.2 hp.1 hp.2 h).2⟩
    · exact And.left

/-- C9 counterexample: after revealing the mine of `modelB`,
`clicked_count` is 1 while no revealed cell is safe. -/
theorem claim_C9_counterexample :
    stateB.model.clicked_count = 1 ∧ safeRevealedCount stateB.model = 0 := by
  decide

theorem claim_C9_clicked_count_witness :
    (applyOps (initState modelB) [Op.reveal 0 1]).model.clicked_count
      = (revealedCount (applyOps (initState modelB) [Op.reveal 0 1]).model : Int) :=
  claim_C9_clicked_count.1 (initState modelB) [Op.reveal 0 1] (by decide) (by decide)

/-! ## Adjacency counts: code count equals spec count -/

theorem mem_get_neighbors (sx sy x y : Nat) (p : Nat × Nat) :
    p ∈ get_neighbors sx sy x y ↔
      p.1 < sx ∧ p.2 < sy ∧ chebAdjacent x y p.1 p.2 := by
  unfold get_neighbors
  rw [List.mem_filterMap]
  constructor
  · rintro ⟨d, hdmem, hd⟩
    have hdoff : d.1 ∈ offsets ∧ d.2 ∈ offsets := by
      rw [List.mem_flatMap] at hdmem
      obtain ⟨dx, hdx, hdmem⟩ := hdmem
      rw [List.mem_map] at hdmem
      obtain ⟨dy, hdy, rfl⟩ := hdmem
      exact ⟨hdx, hdy⟩
    have h1 : d.1 = -1 ∨ d.1 = 0 ∨ d.1 = 1 := by
      have := hdoff.1; simp [offsets] at this; tauto
    have h2 : d.2 = -1 ∨ d.2 = 0 ∨ d.2 = 1 := by
      have := hdoff.2; simp [offsets] at this; tauto
    simp only [neighborOf] at hd
    split at hd
    case isTrue hcond =>
      obtain ⟨hne, hb1, hb2, hb3, hb4⟩ := hcond
      cases hd
      refine ⟨by omega, by omega, ?_, by simp; omega, by simp; omega⟩
      rintro ⟨ha, hb⟩
      rcases hne with h | h <;> omega
    case isFalse => cases hd
  · rintro ⟨hp1, hp2, hne, ha1, ha2⟩
    refine ⟨((p.1 : Int) - x, (p.2 : Int) - y), ?_, ?_⟩
    · rw [List.mem_flatMap]
      refine ⟨(p.1 : Int) - x, by simp [offsets]; omega, ?_⟩
      rw [List.mem_map]
      exact ⟨(p.2 : Int) - y, by simp [offsets]; omega, rfl⟩
    · simp only [neighborOf]
      rw [if_pos]
      · have e1 : ((x : Int) + ((p.1 : Int) - x)).toNat = p.1 := by omega
        have e2 : ((y : Int) + ((p.2 : Int) - y)).toNat = p.2 := by omega
        simp only [e1, e2]
      · refine ⟨?_, by omega, by omega, by omega, by omega⟩
        by_contra hc
        push_neg at hc
        exact hne ⟨by omega, by omega⟩

theorem nodup_get_neighbors (sx sy x y : Nat) : (get_neighbors sx sy x y).Nodup := by
  unfold get_neighbors
  apply List.Nodup.filterMap
  · intro d d' b hb hb'
    simp only [neighborOf, Option.mem_def] at hb hb'
    split at hb
    case isFalse => cases hb
    case isTrue hc =>
      split at hb'
      case isFalse => cases hb'
      case isTrue hc' =>
        cases hb
        simp only [Option.some.injEq, Prod.mk.injEq] at hb'
        obtain ⟨h1, h2⟩ := hb'
        obtain ⟨-, ha1, ha2, ha3, ha4⟩ := hc
        obtain ⟨-, hb1, hb2, hb3, hb4⟩ := hc'
        have e1 : d'.1 = d.1 := by omega
        have e2 : d'.2 = d.2 := by omega
        exact (Prod.ext e1 e2).symm
  · decide

/-- The code's neighbour-mine count (`count_adjacent_mines`, a scan of
the `get_neighbors` list) equals the spec-side Chebyshev count. -/
theorem count_adjacent_eq_spec (m : GameModel) (x y : Nat) :
    count_adjacent_mines m x y = specAdjacentMines m x y := by
  unfold count_adjacent_mines specAdjacentMines
  rw [List.countP_eq_length_filter]
  have hnd : ((get_neighbors m.size_x m.size_y x y).filter
      (fun p => (getCell m p.1 p.2).is_mine)).Nodup :=
    (nodup_get_neighbors m.size_x m.size_y x y).filter _
  rw [← List.toFinset_card_of_nodup hnd]
  congr 1
  ext p
  simp only [List.mem_toFinset, List.mem_filter, mem_get_neighbors,
    Finset.mem_filter, Finset.mem_product, Finset.mem_range]
  unfold chebAdjacent
  constructor
  · rintro ⟨⟨hp1, hp2, h3⟩, hmine⟩
    exact ⟨⟨hp1, hp2⟩, h3, hmine⟩
  · rintro ⟨⟨hp1, hp2⟩, h3, hmine⟩
    exact ⟨⟨hp1, hp2, h3⟩, hmine⟩

theorem buildBoard_getD (sx sy : Nat) (f : Nat → Nat → Cell) (x y : Nat)
    (hx : x < sx) (hy : y < sy) :
    ((buildBoard sx sy f).getD x []).getD y defaultCell = f x y := by
  have h1 : (buildBoard sx sy f).getD x [] = (List.range sy).map (fun y => f x y) := by
    unfold buildBoard
    rw [List.getD_eq_getElem?_getD, List.getElem?_map, List.getElem?_range hx]
    rfl
  rw [h1, List.getD_eq_getElem?_getD, List.getElem?_map, List.getElem?_range hy]
  rfl

theorem getCell_calculate (m : GameModel) (x y : Nat)
    (hx : x < m.size_x) (hy : y < m.size_y) :
    getCell (calculate_adjacent_mines m) x y =
      { getCell m x y with adjacent_mines := count_adjacent_mines m x y } := by
  unfold calculate_adjacent_mines getCell
  simp only
  exact buildBoard_getD m.size_x m.size_y _ x y hx hy

theorem specAdjacent_congr (m m' : GameModel)
    (hsx : m'.size_x = m.size_x) (hsy : m'.size_y = m.size_y)
    (h : ∀ i j, i < m.size_x → j < m.size_y →
      (getCell m' i j).is_mine = (getCell m i j).is_mine)
    (x y : Nat) : specAdjacentMines m' x y = specAdjacentMines m x y := by
  unfold specAdjacentMines
  rw [hsx, hsy]
  congr 1
  apply Finset.filter_congr
  intro p hp
  simp only [Finset.mem_product, Finset.mem_range] at hp
  rw [h p.1 p.2 hp.1 hp.2]

/-- The `calculate_adjacent_mines` establishes the adjacency invariant on
any model. -/
theorem calculate_inv (m : GameModel) :
    adjMinesInv (calculate_adjacent_mines m) := by
  intro x hx y hy
  rw [getCell_calculate m x y hx hy]
  show count_adjacent_mines m x y = specAdjacentMines (calculate_adjacent_mines m) x y
  rw [count_adjacent_eq_spec]
  exact (specAdjacent_congr m (calculate_adjacent_mines m) rfl rfl
    (fun i j hi hj => by rw [getCell_calculate m i j hi hj]) x y).symm

theorem adjInv_congr (m m' : GameModel)
    (hsx : m'.size_x = m.size_x) (hsy : m'.size_y = m.size_y)
    (hmine : ∀ i j, i < m.size_x → j < m.size_y →
      (getCell m' i j).is_mine = (getCell m i j).is_mine)
    (hadj : ∀ i j, i < m.size_x → j < m.size_y →
      (getCell m' i j).adjacent_mines = (getCell m i j).adjacent_mines)
    (h : adjMinesInv m) : adjMinesInv m' := by
  intro x hx y hy
  rw [hsx] at hx
  rw [hsy] at hy
  rw [hadj x y hx hy, h x hx y hy,
    ← specAdjacent_congr m m' hsx hsy hmine x y]

theorem treasureFold_pres (tc : List (Nat × Nat)) (m : GameModel) :
    (tc.foldl placeTreasureAt m).size_x = m.size_x ∧
    (tc.foldl placeTreasureAt m).size_y = m.size_y ∧
    ∀ i j, (getCell (tc.foldl placeTreasureAt m) i j).is_mine = (getCell m i j).is_mine ∧
      (getCell (tc.foldl placeTreasureAt m) i j).adjacent_mines
        = (getCell m i j).adjacent_mines := by
  induction tc generalizing m with
  | nil => exact ⟨rfl, rfl, fun _ _ => ⟨rfl, rfl⟩⟩
  | cons p rest ih =>
    obtain ⟨hsx, hsy, hcell⟩ := ih (placeTreasureAt m p)
    have hstep : ∀ i j, (getCell (placeTreasureAt m p) i j).is_mine
        = (getCell m i j).is_mine ∧
        (getCell (placeTreasureAt m p) i j).adjacent_mines
        = (getCell m i j).adjacent_mines := by
      intro i j
      show (getCell (setCell m p.1 p.2
          { getCell m p.1 p.2 with has_treasure := true }) i j).is_mine
          = (getCell m i j).is_mine ∧
        (getCell (setCell m p.1 p.2
          { getCell m p.1 p.2 with has_treasure := true }) i j).adjacent_mines
          = (getCell m i j).adjacent_mines
      rcases getCell_setCell_cases m p.1 p.2
        { getCell m p.1 p.2 with has_treasure := true } i j with h | ⟨rfl, rfl, h⟩ <;>
        rw [h] <;> exact ⟨rfl, rfl⟩
    rw [List.foldl_cons]
    exact ⟨hsx, hsy, fun i j =>
      ⟨(hcell i j).1.trans (hstep i j).1, (hcell i j).2.trans (hstep i j).2⟩⟩

theorem place_treasures_inv (m : GameModel) (tc : List (Nat × Nat))
    (h : adjMinesInv m) : adjMinesInv (place_treasures m tc) := by
  unfold place_treasures
  split
  · obtain ⟨hsx, hsy, hcell⟩ := treasureFold_pres tc m
    exact adjInv_congr m _ hsx hsy (fun i j _ _ => (hcell i j).1)
      (fun i j _ _ => (hcell i j).2) h
  · exact h

/-- C3: after construction (fixed test board or random placement) and at
every state reachable by reveal/flag requests, each on-board cell's
`adjacent_mines` equals the number of mined cells in its king-move
neighbourhood, clipped at the edges. -/
theorem claim_C3_adjacency_invariant :
    (∀ sx sy nm nt tb, adjMinesInv (mkGameModelTest sx sy nm nt tb)) ∧
    (∀ sx sy nm nt mc tc m, mkGameModelRandom sx sy nm nt mc tc = Except.ok m →
      adjMinesInv m) ∧
    (∀ (s : GameState) (ops : List Op), adjMinesInv s.model →
      adjMinesInv (applyOps s ops).model) := by
  refine ⟨?_, ?_, ?_⟩
  · intro sx sy nm nt tb
    exact calculate_inv _
  · intro sx sy nm nt mc tc m h
    unfold mkGameModelRandom at h
    split at h
    · cases h
    · cases h
      exact place_treasures_inv _ tc (calculate_inv _)
  · intro s ops h
    have hstat := (applyOps_props s ops).1
    exact adjInv_congr s.model _ hstat.size_x hstat.size_y
      (fun i j _ _ => (hstat.cellFields i j).1)
      (fun i j _ _ => (hstat.cellFields i j).2.2) h

theorem claim_C3_adjacency_invariant_witness :
    adjMinesInv modelB ∧
    adjMinesInv (applyOps (initState modelB) [Op.reveal 0 1]).model := by
  constructor
  · exact claim_C3_adjacency_invariant.2.1 1 2 1 0 [(0, 0)] [] modelB (by rfl)
  · exact claim_C3_adjacency_invariant.2.2 (initState modelB) [Op.reveal 0 1] (by decide)

/-! ## Construction: mine and treasure placement (claim C6) -/

theorem countP_eq_sum_range {α : Type} (l : List α) (P : α → Bool) (d : α) :
    l.countP P = ∑ i ∈ Finset.range l.length, if P (l.getD i d) then 1 else 0 := by
  induction l with
  | nil => rfl
  | cons c t ih =>
    rw [List.countP_cons, List.length_cons, Finset.sum_range_succ']
    simp only [List.getD_cons_succ, List.getD_cons_zero]
    rw [← ih]

theorem sum_map_eq_sum_range {α : Type} (l : List α) (f : α → Nat) (d : α) :
    (l.map f).sum = ∑ i ∈ Finset.range l.length, f (l.getD i d) := by
  induction l with
  | nil => rfl
  | cons c t ih =>
    rw [List.map_cons, List.sum_cons, List.length_cons, Finset.sum_range_succ']
    simp only [List.getD_cons_succ, List.getD_cons_zero]
    rw [← ih, Nat.add_comm]

theorem getCell_out_of_bounds_wf (m : GameModel) (i j : Nat) (hwf : boardWF m)
    (h : ¬(i < m.size_x ∧ j < m.size_y)) : getCell m i j = defaultCell := by
  obtain ⟨hlen, hrows⟩ := hwf
  apply getCell_out_of_range
  rintro ⟨h1, h2⟩
  apply h
  refine ⟨by omega, ?_⟩
  have hmem : m.board.getD i [] ∈ m.board := by
    rw [List.getD_eq_getElem?_getD, List.getElem?_eq_getElem h1, Option.getD_some]
    exact List.getElem_mem h1
  rw [hrows _ hmem] at h2
  exact h2

/-- The code-side free-cell count (`len(available_cells)`) as a count
over the coordinate grid, for well-formed boards. -/
theorem nonMineCount_grid (m : GameModel) (hwf : boardWF m) :
    nonMineCount m = ((Finset.range m.size_x ×ˢ Finset.range m.size_y).filter
      fun p => (getCell m p.1 p.2).is_mine = false).card := by
  obtain ⟨hlen, hrows⟩ := hwf
  unfold nonMineCount
  rw [sum_map_eq_sum_range m.board _ [], hlen, Finset.card_filter, Finset.sum_product]
  apply Finset.sum_congr rfl
  intro x hx
  rw [Finset.mem_range] at hx
  have hxlen : x < m.board.length := by omega
  have hrow : (m.board.getD x []).length = m.size_y := by
    rw [List.getD_eq_getElem?_getD, List.getElem?_eq_getElem hxlen, Option.getD_some]
    exact hrows _ (List.getElem_mem hxlen)
  rw [countP_eq_sum_range _ _ defaultCell, hrow]
  apply Finset.sum_congr rfl
  intro y hy
  show (if ((getCell m x y).is_mine = false : Bool) = true then 1 else 0)
    = if (getCell m x y).is_mine = false then 1 else 0
  simp

/-- After a placement characterised by membership in a duplicate-free
in-bounds list, the free-cell count is the grid size minus the list
length. -/
theorem nonMineCount_of_char (m : GameModel) (mc : List (Nat × Nat))
    (hwf : boardWF m) (hnd : mc.Nodup)
    (hin : ∀ p ∈ mc, p.1 < m.size_x ∧ p.2 < m.size_y)
    (hchar : ∀ i j, (getCell m i j).is_mine = true ↔ (i, j) ∈ mc) :
    nonMineCount m = m.size_x * m.size_y - mc.length := by
  rw [nonMineCount_grid m hwf]
  have hsplit := Finset.filter_card_add_filter_neg_card_eq_card
    (s := Finset.range m.size_x ×ˢ Finset.range m.size_y)
    (p := fun p => (getCell m p.1 p.2).is_mine = true)
  have htrue : ((Finset.range m.size_x ×ˢ Finset.range m.size_y).filter
      fun p => (getCell m p.1 p.2).is_mine = true) = mc.toFinset := by
    ext p
    simp only [Finset.mem_filter, Finset.mem_product, Finset.mem_range, List.mem_toFinset]
    constructor
    · rintro ⟨-, h⟩
      exact (hchar p.1 p.2).mp h
    · intro h
      exact ⟨⟨(hin p h).1, (hin p h).2⟩, (hchar p.1 p.2).mpr h⟩
  have hneg : ((Finset.range m.size_x ×ˢ Finset.range m.size_y).filter
      fun p => ¬(getCell m p.1 p.2).is_mine = true) =
      ((Finset.range m.size_x ×ˢ Finset.range m.size_y).filter
      fun p => (getCell m p.1 p.2).is_mine = false) := by
    apply Finset.filter_congr
    intro p _
    simp
  rw [← hneg]
  have hgrid : (Finset.range m.size_x ×ˢ Finset.range m.size_y).card
      = m.size_x * m.size_y := by
    rw [Finset.card_product, Finset.card_range, Finset.card_range]
  rw [htrue, List.toFinset_card_of_nodup hnd, hgrid] at hsplit
  omega

theorem boardWF_buildBoard (sx sy : Nat) (f : Nat → Nat → Cell) :
    (buildBoard sx sy f).length = sx ∧ ∀ row ∈ buildBoard sx sy f, row.length = sy := by
  constructor
  · unfold buildBoard
    rw [List.length_map, List.length_range]
  · intro row hrow
    unfold buildBoard at hrow
    rw [List.mem_map] at hrow
    obtain ⟨x, -, rfl⟩ := hrow
    rw [List.length_map, List.length_range]

theorem boardWF_blank (sx sy nm nt : Nat) : boardWF (blankModel sx sy nm nt) :=
  boardWF_buildBoard sx sy _

theorem boardWF_calculate (m : GameModel) : boardWF (calculate_adjacent_mines m) :=
  boardWF_buildBoard m.size_x m.size_y _

theorem getCell_blank (sx sy nm nt : Nat) (i j : Nat) :
    getCell (blankModel sx sy nm nt) i j = defaultCell := by
  by_cases h : i < sx ∧ j < sy
  · exact buildBoard_getD sx sy _ i j h.1 h.2
  · exact getCell_out_of_bounds_wf _ i j (boardWF_blank sx sy nm nt) h

/-- Pointwise effect of the `place_mines` loop: a cell is a mine
afterwards iff it was one before or its coordinate was sampled; nothing
else about any cell changes. -/
theorem mineFold_char (mc : List (Nat × Nat)) (m : GameModel) (hwf : boardWF m)
    (hin : ∀ p ∈ mc, p.1 < m.size_x ∧ p.2 < m.size_y) :
    boardWF (mc.foldl placeMineAt m) ∧
    (mc.foldl placeMineAt m).size_x = m.size_x ∧
    (mc.foldl placeMineAt m).size_y = m.size_y ∧
    (∀ i j, ((getCell (mc.foldl placeMineAt m) i j).is_mine = true ↔
      ((getCell m i j).is_mine = true ∨ (i, j) ∈ mc))) ∧
    (∀ i j, (getCell (mc.foldl placeMineAt m) i j).has_treasure
      = (getCell m i j).has_treasure) := by
  induction mc generalizing m with
  | nil =>
    exact ⟨hwf, rfl, rfl, fun i j => by simp, fun i j => rfl⟩
  | cons p rest ih =>
    have hp := hin p (List.mem_cons_self p rest)
    have hwf1 : boardWF (placeMineAt m p) :=
      boardWF_setCell m p.1 p.2 _ hwf
    have hsz1 : (placeMineAt m p).size_x = m.size_x ∧ (placeMineAt m p).size_y = m.size_y :=
      ⟨rfl, rfl⟩
    have hstep : ∀ i j, ((getCell (placeMineAt m p) i j).is_mine = true ↔
        ((getCell m i j).is_mine = true ∨ (i, j) = p)) ∧
        (getCell (placeMineAt m p) i j).has_treasure = (getCell m i j).has_treasure := by
      intro i j
      show ((getCell (setCell m p.1 p.2
          { getCell m p.1 p.2 with is_mine := true }) i j).is_mine = true ↔ _) ∧
        (getCell (setCell m p.1 p.2
          { getCell m p.1 p.2 with is_mine := true }) i j).has_treasure = _
      by_cases hij : p.1 = i ∧ p.2 = j
      · obtain ⟨rfl, rfl⟩ := hij
        rw [getCell_setCell_self m p.1 p.2 _ hwf hp.1 hp.2]
        constructor
        · constructor
          · intro _; exact Or.inr rfl
          · intro _; rfl
        · rfl
      · rw [getCell_setCell_ne m p.1 p.2 i j _ hij]
        refine ⟨⟨fun h => Or.inl h, ?_⟩, rfl⟩
        rintro (h | rfl)
        · exact h
        · exact absurd ⟨rfl, rfl⟩ hij
    have hin1 : ∀ q ∈ rest, q.1 < (placeMineAt m p).size_x ∧
        q.2 < (placeMineAt m p).size_y := by
      intro q hq
      exact hin q (List.mem_cons_of_mem p hq)
    obtain ⟨hwf2, hsx2, hsy2, hchar2, htr2⟩ := ih (placeMineAt m p) hwf1 hin1
    rw [List.foldl_cons]
    refine ⟨hwf2, hsx2.trans hsz1.1, hsy2.trans hsz1.2, ?_, ?_⟩
    · intro i j
      rw [hchar2 i j, (hstep i j).1]
      constructor
      · rintro ((h | rfl) | h)
        · exact Or.inl h
        · exact Or.inr (List.mem_cons_self _ rest)
        · exact Or.inr (List.mem_cons_of_mem _ h)
      · rintro (h | h)
        · exact Or.inl (Or.inl h)
        · rcases List.mem_cons.mp h with rfl | h
          · exact Or.inl (Or.inr rfl)
          · exact Or.inr h
    · intro i j
      exact (htr2 i j).trans (hstep i j).2

/-- Pointwise effect of the `place_treasures` loop body (the sampled
fold): a cell has treasure afterwards iff it had one before or its
coordinate was sampled; mine bits are untouched. -/
theorem treasureFold_char (tc : List (Nat × Nat)) (m : GameModel) (hwf : boardWF m)
    (hin : ∀ p ∈ tc, p.1 < m.size_x ∧ p.2 < m.size_y) :
    boardWF (tc.foldl placeTreasureAt m) ∧
    (tc.foldl placeTreasureAt m).size_x = m.size_x ∧
    (tc.foldl placeTreasureAt m).size_y = m.size_y ∧
    (∀ i j, ((getCell (tc.foldl placeTreasureAt m) i j).has_treasure = true ↔
      ((getCell m i j).has_treasure = true ∨ (i, j) ∈ tc))) ∧
    (∀ i j, (getCell (tc.foldl placeTreasureAt m) i j).is_mine
      = (getCell m i j).is_mine) := by
  induction tc generalizing m with
  | nil =>
    exact ⟨hwf, rfl, rfl, fun i j => by simp, fun i j => rfl⟩
  | cons p rest ih =>
    have hp := hin p (List.mem_cons_self p rest)
    have hwf1 : boardWF (placeTreasureAt m p) :=
      boardWF_setCell m p.1 p.2 _ hwf
    have hstep : ∀ i j, ((getCell (placeTreasureAt m p) i j).has_treasure = true ↔
        ((getCell m i j).has_treasure = true ∨ (i, j) = p)) ∧
        (getCell (placeTreasureAt m p) i j).is_mine = (getCell m i j).is_mine := by
      intro i j
      show ((getCell (setCell m p.1 p.2
          { getCell m p.1 p.2 with has_treasure := true }) i j).has_treasure = true ↔ _) ∧
        (getCell (setCell m p.1 p.2
          { getCell m p.1 p.2 with has_treasure := true }) i j).is_mine = _
      by_cases hij : p.1 = i ∧ p.2 = j
      · obtain ⟨rfl, rfl⟩ := hij
        rw [getCell_setCell_self m p.1 p.2 _ hwf hp.1 hp.2]
        exact ⟨⟨fun _ => Or.inr rfl, fun _ => rfl⟩, rfl⟩
      · rw [getCell_setCell_ne m p.1 p.2 i j _ hij]
        refine ⟨⟨fun h => Or.inl h, ?_⟩, rfl⟩
        rintro (h | rfl)
        · exact h
        · exact absurd ⟨rfl, rfl⟩ hij
    have hin1 : ∀ q ∈ rest, q.1 < (placeTreasureAt m p).size_x ∧
        q.2 < (placeTreasureAt m p).size_y := by
      intro q hq
      exact hin q (List.mem_cons_of_mem p hq)
    obtain ⟨hwf2, hsx2, hsy2, hchar2, hmine2⟩ := ih (placeTreasureAt m p) hwf1 hin1
    rw [List.foldl_cons]
    refine ⟨hwf2, hsx2, hsy2, ?_, ?_⟩
    · intro i j
      rw [hchar2 i j, (hstep i j).1]
      constructor
      · rintro ((h | rfl) | h)
        · exact Or.inl h
        · exact Or.inr (List.mem_cons_self _ rest)
        · exact Or.inr (List.mem_cons_of_mem _ h)
      · rintro (h | h)
        · exact Or.inl (Or.inl h)
        · rcases List.mem_cons.mp h with rfl | h
          · exact Or.inl (Or.inr rfl)
          · exact Or.inr h
    · intro i j
      exact (hmine2 i j).trans (hstep i j).2

theorem mineFold_num_treasures (mc : List (Nat × Nat)) (m : GameModel) :
    (mc.foldl placeMineAt m).num_treasures = m.num_treasures := by
  induction mc generalizing m with
  | nil => rfl
  | cons p rest ih => rw [List.foldl_cons]; exact ih (placeMineAt m p)

/-- Random-mode construction with valid samples and enough room: it
succeeds, and the mines and treasures are exactly the sampled cells. -/
theorem mkRandom_ok_char (sx sy nm nt : Nat) (mc tc : List (Nat × Nat))
    (hmnd : mc.Nodup) (hmlen : mc.length = nm)
    (hmin : ∀ p ∈ mc, p.1 < sx ∧ p.2 < sy)
    (htin : ∀ p ∈ tc, (p.1 < sx ∧ p.2 < sy) ∧ p ∉ mc)
    (hle : nm + nt ≤ sx * sy) :
    ∃ m, mkGameModelRandom sx sy nm nt mc tc = Except.ok m ∧
      (∀ i j, ((getCell m i j).is_mine = true ↔ (i, j) ∈ mc)) ∧
      (∀ i j, ((getCell m i j).has_treasure = true ↔ (i, j) ∈ tc)) := by
  have hM1 := mineFold_char mc (blankModel sx sy nm nt) (boardWF_blank sx sy nm nt) hmin
  obtain ⟨hwf1, hsx1, hsy1, hchar1, htr1⟩ := hM1
  have hchar1' : ∀ i j, (getCell (mc.foldl placeMineAt (blankModel sx sy nm nt)) i j).is_mine
      = true ↔ (i, j) ∈ mc := by
    intro i j
    rw [hchar1 i j, getCell_blank]
    simp [defaultCell]
  have htr1' : ∀ i j, (getCell (mc.foldl placeMineAt (blankModel sx sy nm nt)) i j).has_treasure
      = false := by
    intro i j
    rw [htr1 i j, getCell_blank]
    rfl
  set M1 := mc.foldl placeMineAt (blankModel sx sy nm nt) with hM1def
  set M2 := calculate_adjacent_mines M1 with hM2def
  have hwf2 : boardWF M2 := boardWF_calculate M1
  have hsz2 : M2.size_x = sx ∧ M2.size_y = sy := ⟨hsx1, hsy1⟩
  have hcell2 : ∀ i j, (getCell M2 i j).is_mine = (getCell M1 i j).is_mine ∧
      (getCell M2 i j).has_treasure = (getCell M1 i j).has_treasure := by
    intro i j
    by_cases hij : i < M1.size_x ∧ j < M1.size_y
    · rw [hM2def, getCell_calculate M1 i j hij.1 hij.2]
      exact ⟨rfl, rfl⟩
    · have h2 : ¬(i < M2.size_x ∧ j < M2.size_y) := hij
      rw [getCell_out_of_bounds_wf M2 i j hwf2 h2,
        getCell_out_of_bounds_wf M1 i j hwf1 hij]
      exact ⟨rfl, rfl⟩
  have hchar2 : ∀ i j, ((getCell M2 i j).is_mine = true ↔ (i, j) ∈ mc) := by
    intro i j
    rw [(hcell2 i j).1]
    exact hchar1' i j
  have htr2 : ∀ i j, (getCell M2 i j).has_treasure = false := by
    intro i j
    rw [(hcell2 i j).2]
    exact htr1' i j
  have hmin2 : ∀ p ∈ mc, p.1 < M2.size_x ∧ p.2 < M2.size_y := by
    intro p hp
    rw [hsz2.1, hsz2.2]
    exact hmin p hp
  have hnon : nonMineCount M2 = M2.size_x * M2.size_y - mc.length :=
    nonMineCount_of_char M2 mc hwf2 hmnd hmin2 hchar2
  have hguard : M2.num_treasures ≤ nonMineCount M2 := by
    have hnt : M2.num_treasures = nt := by
      show (calculate_adjacent_mines M1).num_treasures = nt
      rw [show (calculate_adjacent_mines M1).num_treasures = M1.num_treasures from rfl,
        hM1def, mineFold_num_treasures]
      rfl
    rw [hnt, hnon, hsz2.1, hsz2.2, ← hmlen] at *
    omega
  have htin2 : ∀ p ∈ tc, p.1 < M2.size_x ∧ p.2 < M2.size_y := by
    intro p hp
    rw [hsz2.1, hsz2.2]
    exact (htin p hp).1
  obtain ⟨hwf3, hsx3, hsy3, hchar3, hmine3⟩ := treasureFold_char tc M2 hwf2 htin2
  refine ⟨place_treasures M2 tc, ?_, ?_, ?_⟩
  · unfold mkGameModelRandom
    rw [if_neg (by omega)]
    rfl
  · intro i j
    unfold place_treasures
    rw [if_pos hguard]
    rw [hmine3 i j]
    exact hchar2 i j
  · intro i j
    unfold place_treasures
    rw [if_pos hguard]
    rw [hchar3 i j, htr2 i j]
    simp

/-- C6 (corrected): random construction raises only when the mine
sample exceeds the cell population (`mine_count > size_x*size_y`); with
valid samples and `mine_count + treasure_count <= size_x*size_y` it
succeeds and the mines/treasures are exactly the sampled distinct
cells. -/
theorem claim_C6_random_construction :
    (∀ sx sy nm nt (mc tc : List (Nat × Nat)),
      (∃ e, mkGameModelRandom sx sy nm nt mc tc = Except.error e) ↔ sx * sy < nm) ∧
    (∀ sx sy nm nt (mc tc : List (Nat × Nat)),
      mc.Nodup → mc.length = nm → (∀ p ∈ mc, p.1 < sx ∧ p.2 < sy) →
      tc.Nodup → tc.length = nt → (∀ p ∈ tc, (p.1 < sx ∧ p.2 < sy) ∧ p ∉ mc) →
      nm + nt ≤ sx * sy →
      ∃ m, mkGameModelRandom sx sy nm nt mc tc = Except.ok m ∧
        (∀ i j, ((getCell m i j).is_mine = true ↔ (i, j) ∈ mc)) ∧
        (∀ i j, ((getCell m i j).has_treasure = true ↔ (i, j) ∈ tc))) := by
  constructor
  · intro sx sy nm nt mc tc
    unfold mkGameModelRandom
    split
    case isTrue h => exact ⟨fun _ => h, fun _ => ⟨_, rfl⟩⟩
    case isFalse h =>
      constructor
      · rintro ⟨e, he⟩
        cases he
      · intro hlt
        exact absurd hlt h
  · intro sx sy nm nt mc tc hmnd hmlen hmin htnd htlen htin hle
    exact mkRandom_ok_char sx sy nm nt mc tc hmnd hmlen hmin htin hle

/-- C6 counterexample: with 3 mines and 2 treasures requested on a 2×2
board (`3 + 2 >= 4`, so the claim demands a ConfigurationError), the
construction succeeds — and silently places no treasure at all. -/
theorem claim_C6_counterexample :
    2 * 2 ≤ 3 + 2 ∧
    (∃ m, mkGameModelRandom 2 2 3 2 [(0, 0), (0, 1), (1, 0)] [(1, 1), (0, 0)]
        = Except.ok m ∧
      ∀ i, i < 2 → ∀ j, j < 2 → (getCell m i j).has_treasure = false) :=
  ⟨by decide,
    ⟨(mkGameModelRandom 2 2 3 2 [(0, 0), (0, 1), (1, 0)]
        [(1, 1), (0, 0)]).toOption.getD (blankModel 0 0 0 0),
      by rfl, by decide⟩⟩

theorem claim_C6_random_construction_witness :
    ∃ m, mkGameModelRandom 2 2 2 1 [(0, 0), (1, 1)] [(0, 1)] = Except.ok m ∧
      (∀ i j, ((getCell m i j).is_mine = true ↔ (i, j) ∈ [(0, 0), (1, 1)])) ∧
      (∀ i j, ((getCell m i j).has_treasure = true ↔ (i, j) ∈ [(0, 1)])) :=
  claim_C6_random_construction.2 2 2 2 1 [(0, 0), (1, 1)] [(0, 1)]
    (by decide) (by decide) (by decide) (by decide) (by decide) (by decide) (by decide)

/-! ## The test-board validator (claim C7) -/

theorem orElse_eq_none (a : Option String) (f : Unit → Option String) :
    (a.orElse f) = none ↔ a = none ∧ f () = none := by
  cases a <;> simp [Option.orElse]

theorem validate_ok_iff_none (rows : List (List Nat)) :
    (load_and_validate_test_board rows).1 = true ↔ validationError rows = none := by
  unfold load_and_validate_test_board
  cases h : validationError rows <;> simp

theorem cellValueOK_iff (v : Nat) : cellValueOK v = true ↔ (v = 0 ∨ v = 1 ∨ v = 2) := by
  simp [cellValueOK]
  tauto

theorem readRows_eq_none (rows : List (List Nat)) :
    readRows rows = none ↔
      ∀ r ∈ rows, r.length = 8 ∧ ∀ v ∈ r, v = 0 ∨ v = 1 ∨ v = 2 := by
  induction rows with
  | nil => simp [readRows]
  | cons r rs ih =>
    unfold readRows
    by_cases h1 : r.length = 8
    · rw [if_neg (by omega)]
      by_cases h2 : r.any (fun v => !(cellValueOK v))
      · rw [if_pos h2]
        constructor
        · intro h; cases h
        · intro hall
          rw [List.any_eq_true] at h2
          obtain ⟨v, hv, hbad⟩ := h2
          rw [Bool.not_eq_true'] at hbad
          have := (hall r (List.mem_cons_self r rs)).2 v hv
          rw [← cellValueOK_iff] at this
          rw [this] at hbad
          cases hbad
      · rw [if_neg h2, ih]
        constructor
        · intro hall
          intro q hq
          rcases List.mem_cons.mp hq with rfl | hq
          · refine ⟨h1, ?_⟩
            intro v hv
            rw [← cellValueOK_iff]
            by_contra hc
            exact h2 (List.any_eq_true.mpr ⟨v, hv, by simp [hc]⟩)
          · exact hall q hq
        · intro hall q hq
          exact hall q (List.mem_cons_of_mem r hq)
    · rw [if_pos (by omega)]
      constructor
      · intro h; cases h
      · intro hall
        exact absurd (hall r (List.mem_cons_self r rs)).1 h1

theorem mem_iff_getD (l : List Nat) (a : Nat) :
    a ∈ l ↔ ∃ j, j < l.length ∧ l.getD j 0 = a := by
  rw [List.mem_iff_getElem]
  constructor
  · rintro ⟨n, hn, rfl⟩
    exact ⟨n, hn, by rw [List.getD_eq_getElem?_getD, List.getElem?_eq_getElem hn]; rfl⟩
  · rintro ⟨j, hj, hval⟩
    refine ⟨j, hj, ?_⟩
    rw [List.getD_eq_getElem?_getD, List.getElem?_eq_getElem hj] at hval
    exact hval

theorem sum_map_range (n : Nat) (f : Nat → Nat) :
    ((List.range n).map f).sum = ∑ i ∈ Finset.range n, f i := by
  induction n with
  | zero => rfl
  | succ n ih =>
    rw [List.range_succ, List.map_append, List.sum_append, Finset.sum_range_succ, ih]
    simp

theorem card_filter_range (n : Nat) (P : Nat → Prop) [DecidablePred P] :
    ((Finset.range n).filter P).card = ((List.range n).filter (fun i => decide (P i))).length := by
  induction n with
  | zero => rfl
  | succ n ih =>
    rw [Finset.range_succ, Finset.filter_insert, List.range_succ, List.filter_append,
      List.length_append]
    by_cases h : P n
    · rw [if_pos h, Finset.card_insert_of_not_mem (by simp)]
      simp [h, ih]
    · rw [if_neg h]
      simp [h, ih]

/-- The validator's whole-board counting (`sum(row.count(v) ...)`)
equals the grid-indexed spec count, for a matrix that passed the shape
checks. -/
theorem count_grid (rows : List (List Nat)) (a : Nat)
    (hlen : rows.length = 8) (hrows : ∀ r ∈ rows, r.length = 8) :
    (rows.map (fun r => r.count a)).sum =
      ((Finset.range 8 ×ˢ Finset.range 8).filter fun p => tbVal rows p.1 p.2 = a).card := by
  rw [sum_map_eq_sum_range rows _ [], hlen, Finset.card_filter, Finset.sum_product]
  apply Finset.sum_congr rfl
  intro x hx
  rw [Finset.mem_range] at hx
  have hxlen : x < rows.length := by omega
  have hrow : (rows.getD x []).length = 8 := by
    rw [List.getD_eq_getElem?_getD, List.getElem?_eq_getElem hxlen, Option.getD_some]
    exact hrows _ (List.getElem_mem hxlen)
  show (rows.getD x []).countP (· == a) = _
  rw [countP_eq_sum_range _ _ 0, hrow]
  apply Finset.sum_congr rfl
  intro y hy
  show (if ((rows.getD x []).getD y 0 == a) = true then 1 else 0)
    = if tbVal rows x y = a then 1 else 0
  simp [tbVal]

theorem checkRowCount_none (rows : List (List Nat)) :
    checkRowCount rows = none ↔ rows.length = 8 := by
  unfold checkRowCount
  by_cases h : rows.length = 8
  · rw [if_neg (by omega)]
    simp [h]
  · rw [if_pos (by omega)]
    simp [h]

theorem checkMineTotal_none (rows : List (List Nat)) :
    checkMineTotal rows = none ↔ (rows.map (fun r => r.count 1)).sum = 10 := by
  unfold checkMineTotal
  by_cases h : (rows.map (fun r => r.count 1)).sum = 10
  · rw [if_neg (by omega)]
    simp [h]
  · rw [if_pos (by omega)]
    simp [h]

theorem checkDiagonal_none (rows : List (List Nat)) :
    checkDiagonal rows = none ↔
      ((List.range 8).filter (fun i => tbVal rows i i = 1)).length = 1 := by
  unfold checkDiagonal
  by_cases h : ((List.range 8).filter (fun i => tbVal rows i i = 1)).length = 1
  · rw [if_neg (by omega)]
    simp [h]
  · rw [if_pos (by omega)]
    simp [h]

theorem checkAdjacent_none (rows : List (List Nat)) :
    checkAdjacent rows = none ↔
      ((List.range 8).map (fun x =>
        ((List.range 8).map (fun y => adjPairContrib rows x y)).sum)).sum = 1 := by
  unfold checkAdjacent
  by_cases h : ((List.range 8).map (fun x =>
      ((List.range 8).map (fun y => adjPairContrib rows x y)).sum)).sum = 1
  · rw [if_neg (by omega)]
    simp [h]
  · rw [if_pos (by omega)]
    simp [h]

theorem checkTreasureMin_none (rows : List (List Nat)) :
    checkTreasureMin rows = none ↔ 1 ≤ (rows.map (fun r => r.count 2)).sum := by
  unfold checkTreasureMin
  by_cases h : 1 ≤ (rows.map (fun r => r.count 2)).sum
  · rw [if_neg (by omega)]
    simp [h]
  · rw [if_pos (by omega)]
    simp [h]

theorem checkTreasureMax_none (rows : List (List Nat)) :
    checkTreasureMax rows = none ↔ (rows.map (fun r => r.count 2)).sum ≤ 9 := by
  unfold checkTreasureMax
  by_cases h : (rows.map (fun r => r.count 2)).sum ≤ 9
  · rw [if_neg (by omega)]
    simp [h]
  · rw [if_pos (by omega)]
    simp [h]

theorem checkRowCoverage_none (rows : List (List Nat)) :
    checkRowCoverage rows = none ↔
      ∀ i ∈ List.range 8, ¬((rows.getD i []).count 1 < 1) := by
  unfold checkRowCoverage
  rw [Option.map_eq_none', List.find?_eq_none]
  constructor
  · intro h i hi
    have := h i hi
    simpa using this
  · intro h i hi
    simpa using h i hi

theorem checkColCoverage_none (rows : List (List Nat)) :
    checkColCoverage rows = none ↔
      ∀ c ∈ List.range 8,
        ¬(((List.range 8).map (fun r => tbVal rows r c)).count 1 < 1) := by
  unfold checkColCoverage
  rw [Option.map_eq_none', List.find?_eq_none]
  constructor
  · intro h c hc
    simpa using h c hc
  · intro h c hc
    simpa using h c hc

/-- Row coverage in spec form: every row index below 8 owns a mine. -/
theorem rowCoverage_iff (rows : List (List Nat))
    (hlen : rows.length = 8) (hrows : ∀ r ∈ rows, r.length = 8) :
    (∀ i ∈ List.range 8, ¬((rows.getD i []).count 1 < 1)) ↔
      (∀ i, i < 8 → ∃ j, j < 8 ∧ tbVal rows i j = 1) := by
  constructor
  · intro h i hi
    have hcount := h i (List.mem_range.mpr hi)
    have hpos : 0 < (rows.getD i []).count 1 := by omega
    rw [List.count_pos_iff] at hpos
    rw [mem_iff_getD] at hpos
    obtain ⟨j, hj, hval⟩ := hpos
    have hrow : (rows.getD i []).length = 8 := by
      have hilen : i < rows.length := by omega
      rw [List.getD_eq_getElem?_getD, List.getElem?_eq_getElem hilen, Option.getD_some]
      exact hrows _ (List.getElem_mem hilen)
    rw [hrow] at hj
    exact ⟨j, hj, hval⟩
  · intro h i hi
    rw [List.mem_range] at hi
    obtain ⟨j, hj, hval⟩ := h i hi
    have : 0 < (rows.getD i []).count 1 := by
      rw [List.count_pos_iff, mem_iff_getD]
      have hrow : (rows.getD i []).length = 8 := by
        have hilen : i < rows.length := by omega
        rw [List.getD_eq_getElem?_getD, List.getElem?_eq_getElem hilen, Option.getD_some]
        exact hrows _ (List.getElem_mem hilen)
      exact ⟨j, by omega, hval⟩
    omega

/-- Column coverage in spec form. -/
theorem colCoverage_iff (rows : List (List Nat)) :
    (∀ c ∈ List.range 8,
      ¬(((List.range 8).map (fun r => tbVal rows r c)).count 1 < 1)) ↔
      (∀ j, j < 8 → ∃ i, i < 8 ∧ tbVal rows i j = 1) := by
  constructor
  · intro h c hc
    have hcount := h c (List.mem_range.mpr hc)
    have hpos : 0 < ((List.range 8).map (fun r => tbVal rows r c)).count 1 := by omega
    rw [List.count_pos_iff, List.mem_map] at hpos
    obtain ⟨r, hr, hval⟩ := hpos
    exact ⟨r, List.mem_range.mp hr, hval⟩
  · intro h c hc
    rw [List.mem_range] at hc
    obtain ⟨i, hi, hval⟩ := h c hc
    have : 0 < ((List.range 8).map (fun r => tbVal rows r c)).count 1 := by
      rw [List.count_pos_iff, List.mem_map]
      exact ⟨i, List.mem_range.mpr hi, hval⟩
    omega

theorem sum_ite_range (n m : Nat) (h : m ≤ n) (g : Nat → Nat) :
    (∑ x ∈ Finset.range n, if x < m then g x else 0) = ∑ x ∈ Finset.range m, g x := by
  rw [← Finset.sum_subset (Finset.range_subset.mpr h)]
  · apply Finset.sum_congr rfl
    intro x hx
    rw [Finset.mem_range] at hx
    rw [if_pos hx]
  · intro x hxn hxm
    rw [Finset.mem_range] at hxm
    rw [if_neg hxm]

/-- The validator's right-and-down `adjacent_pairs` scan equals the
spec-side count of horizontal plus vertical mine pairs. -/
theorem adjSum_eq_spec (rows : List (List Nat)) :
    ((List.range 8).map (fun x =>
      ((List.range 8).map (fun y => adjPairContrib rows x y)).sum)).sum
      = specAdjPairs rows := by
  rw [sum_map_range]
  have hinner : ∀ x, ((List.range 8).map (fun y => adjPairContrib rows x y)).sum
      = ∑ y ∈ Finset.range 8, adjPairContrib rows x y := fun x => sum_map_range 8 _
  simp only [hinner]
  have hpt : ∀ x y, adjPairContrib rows x y =
      (if y < 7 then (if tbVal rows x y = 1 ∧ tbVal rows x (y + 1) = 1 then 1 else 0) else 0) +
      (if x < 7 then (if tbVal rows x y = 1 ∧ tbVal rows (x + 1) y = 1 then 1 else 0) else 0) := by
    intro x y
    unfold adjPairContrib
    by_cases h : tbVal rows x y = 1
    · rw [if_pos h]
      by_cases h1 : y < 7 <;> by_cases h2 : x < 7 <;> simp [h, h1, h2]
    · rw [if_neg h]
      by_cases h1 : y < 7 <;> by_cases h2 : x < 7 <;> simp [h, h1, h2]
  simp only [hpt]
  simp only [Finset.sum_add_distrib]
  show _ = ((Finset.range 8 ×ˢ Finset.range 7).filter fun p =>
      tbVal rows p.1 p.2 = 1 ∧ tbVal rows p.1 (p.2 + 1) = 1).card +
    ((Finset.range 7 ×ˢ Finset.range 8).filter fun p =>
      tbVal rows p.1 p.2 = 1 ∧ tbVal rows (p.1 + 1) p.2 = 1).card
  refine congrArg₂ HAdd.hAdd ?_ ?_
  · rw [Finset.card_filter, Finset.sum_product]
    apply Finset.sum_congr rfl
    intro x hx
    exact sum_ite_range 8 7 (by omega)
      (fun y => if tbVal rows x y = 1 ∧ tbVal rows x (y + 1) = 1 then 1 else 0)
  · rw [Finset.card_filter, Finset.sum_product]
    rw [← sum_ite_range 8 7 (by omega)
      (fun x => ∑ y ∈ Finset.range 8,
        if tbVal rows x y = 1 ∧ tbVal rows (x + 1) y = 1 then 1 else 0)]
    apply Finset.sum_congr rfl
    intro x hx
    by_cases h : x < 7
    · rw [if_pos h]
      apply Finset.sum_congr rfl
      intro y hy
      rw [if_pos h]
    · rw [if_neg h]
      apply Finset.sum_eq_zero
      intro y hy
      rw [if_neg h]

/-- C7 (corrected): the validator accepts exactly the boards satisfying
the spec-side conditions; an 8×8 matrix of values in 0..2 with exactly
ten mines, a mine in every row and column, exactly one diagonal mine,
exactly one orthogonally adjacent mine pair and one to nine treasures.
The claimed check order is corrected by the separate counterexample. -/
theorem claim_C7_validator (rows : List (List Nat)) :
    (load_and_validate_test_board rows).1 = true ↔ specBoardOK rows := by
  rw [validate_ok_iff_none]
  unfold validationError
  simp only [orElse_eq_none]
  constructor
  · rintro ⟨hread, hcount, hmine, hrowcov, hcolcov, hdiag, hadj, htmin, htmax⟩
    have hlen : rows.length = 8 := (checkRowCount_none rows).mp hcount
    have hrows' := (readRows_eq_none rows).mp hread
    have hrowlen : ∀ r ∈ rows, r.length = 8 := fun r hr => (hrows' r hr).1
    refine ⟨hlen, hrowlen, fun r hr => (hrows' r hr).2, ?_, ?_, ?_, ?_, ?_, ?_, ?_⟩
    · have h10 := (checkMineTotal_none rows).mp hmine
      rw [count_grid rows 1 hlen hrowlen] at h10
      exact h10
    · exact (rowCoverage_iff rows hlen hrowlen).mp ((checkRowCoverage_none rows).mp hrowcov)
    · exact (colCoverage_iff rows).mp ((checkColCoverage_none rows).mp hcolcov)
    · have hd := (checkDiagonal_none rows).mp hdiag
      unfold specDiagCount
      rw [card_filter_range]
      exact hd
    · have ha := (checkAdjacent_none rows).mp hadj
      rw [adjSum_eq_spec] at ha
      exact ha
    · have ht := (checkTreasureMin_none rows).mp htmin
      rw [count_grid rows 2 hlen hrowlen] at ht
      exact ht
    · have ht := (checkTreasureMax_none rows).mp htmax
      rw [count_grid rows 2 hlen hrowlen] at ht
      exact ht
  · rintro ⟨hlen, hrowlen, hvals, hmine, hrowcov, hcolcov, hdiag, hadj, htmin, htmax⟩
    refine ⟨?_, ?_, ?_, ?_, ?_, ?_, ?_, ?_, ?_⟩
    · exact (readRows_eq_none rows).mpr (fun r hr => ⟨hrowlen r hr, hvals r hr⟩)
    · exact (checkRowCount_none rows).mpr hlen
    · refine (checkMineTotal_none rows).mpr ?_
      rw [count_grid rows 1 hlen hrowlen]
      exact hmine
    · exact (checkRowCoverage_none rows).mpr ((rowCoverage_iff rows hlen hrowlen).mpr hrowcov)
    · exact (checkColCoverage_none rows).mpr ((colCoverage_iff rows).mpr hcolcov)
    · refine (checkDiagonal_none rows).mpr ?_
      rw [← card_filter_range]
      exact hdiag
    · refine (checkAdjacent_none rows).mpr ?_
      rw [adjSum_eq_spec]
      exact hadj
    · refine (checkTreasureMin_none rows).mpr ?_
      rw [count_grid rows 2 hlen hrowlen]
      exact htmin
    · refine (checkTreasureMax_none rows).mpr ?_
      rw [count_grid rows 2 hlen hrowlen]
      exact htmax

/-- C7 counterexample to the claimed check order: the per-row value
check runs during the reading loop, before the row-count check, so a
one-row matrix with an out-of-range value is rejected with the value
message even though the matrix is not 8×8. -/
theorem claim_C7_counterexample :
    load_and_validate_test_board [[0, 0, 0, 0, 0, 0, 0, 3]]
        = (false, "Each cell must be 0, 1, or 2.") ∧
      ([[0, 0, 0, 0, 0, 0, 0, 3]] : List (List Nat)).length ≠ 8 := by
  constructor
  · rfl
  · decide
